import Mathlib

/-! # Polyscope: curve-network scalar quantities and persistent values

A shallow embedding of

* `CurveNetworkEdgeScalarQuantity::updateNodeAverageValues`, the edge-to-node
  reduction of `src/curve_network_scalar_quantity.cpp`;
* `CurveNetworkScalarQuantity::draw` / `refresh` and the two `createProgram`
  overrides of the same file, as a state machine that logs every call made on
  the rendering engine, the parent structure and the shader programs;
* `PersistentValue<T>` of `include/polyscope/persistent_value.h`, with the
  global cache passed explicitly.

Conventions. The edge values are exact rationals (`ℚ`); an entry of the derived
node buffer is an exact rational or a non-finite `float` (an infinity or NaN),
which is what a division by zero leaves. `size_t` indices and the `int32_t`
occurrence counters are natural numbers (signed overflow of a counter is
undefined behaviour in C++ and lies outside the model). An out-of-range
`operator[]` on a `std::vector` is undefined behaviour in C++; the embedding
returns `none` there.
-/

namespace polyscope

/-! ## Data model -/

/-- Modelled from the spec: the enumeration `DataType` is declared in
`polyscope/types.h`, which is not part of the sources at hand. The spec gives the
classification as Continuous or Categorical; the code only ever tests
`dataType == DataType::CATEGORICAL`. -/
inductive DataType where
  | CONTINUOUS
  | CATEGORICAL
  deriving DecidableEq

/-- The part of the parent `CurveNetwork` structure that the scalar quantities
read: element counts `nNodes()` / `nEdges()`, the adjacency index arrays, the
cached per-node degree table and the material name. -/
structure CurveNetwork where
  nNodes : Nat
  nEdges : Nat
  edgeTailInds : List Nat
  edgeTipInds : List Nat
  nodeDegrees : List Nat
  material : String
  deriving DecidableEq

/-! ## `updateNodeAverageValues` -/

/-- A `float` held by the derived node buffer: an exact rational, or a non-finite
value (an infinity or NaN). -/
inductive FloatVal where
  | finite (value : ℚ)
  | nonFinite
  deriving DecidableEq

/-- The operation `x += v` for a finite `v`: a non-finite `x` stays non-finite. -/
def FloatVal.add (x : FloatVal) (v : ℚ) : FloatVal :=
  match x with
  | FloatVal.finite a => FloatVal.finite (a + v)
  | FloatVal.nonFinite => FloatVal.nonFinite

/-- The operation `x /= d` for a `size_t` divisor `d`: dividing by 0 leaves a
non-finite value (an infinity for `x` other than 0, NaN for 0), and a non-finite
`x` stays non-finite. -/
def FloatVal.divNat (x : FloatVal) (d : Nat) : FloatVal :=
  match x with
  | FloatVal.finite a => if d = 0 then FloatVal.nonFinite else FloatVal.finite (a / (d : ℚ))
  | FloatVal.nonFinite => FloatVal.nonFinite

/-- The call `std::vector<float>::resize(n)`: keeps the first `n` existing entries and
appends value-initialised (zero) entries up to length `n`. -/
def resize (data : List FloatVal) (n : Nat) : List FloatVal :=
  data.take n ++ List.replicate (n - data.length) (FloatVal.finite 0)

/-- The statement `data[ind] += val` on a `std::vector<float>`. -/
def addAt (data : List FloatVal) (ind : Nat) (val : ℚ) : Option (List FloatVal) :=
  match data[ind]? with
  | some x => some (data.set ind (x.add val))
  | none => none

/-- Body of the mean-reduction loop over edges (Continuous branch). -/
def meanEdgeStep (net : CurveNetwork) (values : List ℚ) (data : List FloatVal) (iE : Nat) :
    Option (List FloatVal) := do
  let eTail ← net.edgeTailInds[iE]?
  let eTip ← net.edgeTipInds[iE]?
  let v ← values[iE]?
  let data ← addAt data eTail v
  addAt data eTip v

/-- Body of the second loop of the Continuous branch:
`data[iN] /= nodeDegrees[iN]; if (nodeDegrees[iN] == 0) data[iN] = 0.` -/
def meanNodeStep (net : CurveNetwork) (data : List FloatVal) (iN : Nat) :
    Option (List FloatVal) := do
  let deg ← net.nodeDegrees[iN]?
  let x ← data[iN]?
  let data := data.set iN (x.divNat deg)
  if deg = 0 then some (data.set iN (FloatVal.finite 0)) else some data

/-- Entries of one `std::unordered_map<float, int32_t>`, kept in insertion
order. -/
abbrev ValueCountMap := List (ℚ × Nat)

/-- The lookup `map.find(val)`: the count stored under `val`, if any. -/
def ValueCountMap.find (map : ValueCountMap) (val : ℚ) : Option Nat :=
  (List.find? (fun entry => decide (entry.1 = val)) map).map Prod.snd

/-- The write `map[val] = count`: overwrite the entry of `val`, or insert a new one. -/
def ValueCountMap.assign (map : ValueCountMap) (val : ℚ) (count : Nat) : ValueCountMap :=
  match map.find val with
  | some _ => map.map (fun entry => if entry.1 = val then (entry.1, count) else entry)
  | none => map ++ [(val, count)]

/-- The lambda `incrementValueCount(ind, val)` of the Categorical branch. -/
def incrementValueCount (valueCounts : List ValueCountMap) (ind : Nat) (val : ℚ) :
    Option (List ValueCountMap) :=
  match valueCounts[ind]? with
  | none => none
  | some map =>
    match map.find val with
    | none => some (valueCounts.set ind (map.assign val 1))
    | some count => some (valueCounts.set ind (map.assign val (count + 1)))

/-- Body of the counting loop over edges (Categorical branch). -/
def countEdgeStep (net : CurveNetwork) (values : List ℚ) (valueCounts : List ValueCountMap)
    (iE : Nat) : Option (List ValueCountMap) := do
  let eTail ← net.edgeTailInds[iE]?
  let eTip ← net.edgeTipInds[iE]?
  let v ← values[iE]?
  let valueCounts ← incrementValueCount valueCounts eTail v
  incrementValueCount valueCounts eTip v

/-- One iteration of `for (const auto& entry : valueCounts[iN])`, on the pair
`(maxCount, maxVal)`. -/
def modeScanStep (acc : Nat × ℚ) (entry : ℚ × Nat) : Nat × ℚ :=
  if entry.2 > acc.1 then (entry.2, entry.1) else acc

/-- The scan for the most frequent value: starts from `maxCount = 0`,
`maxVal = 0.` and returns the final `maxVal`. -/
def modeScan (entries : List (ℚ × Nat)) : ℚ :=
  (entries.foldl modeScanStep (0, 0)).2

/-- Body of the second loop of the Categorical branch. The order in which a
range-for visits an `unordered_map` is not fixed by the language; it is the
parameter `iterationOrder`. -/
def modeNodeStep (iterationOrder : ValueCountMap → List (ℚ × Nat))
    (valueCounts : List ValueCountMap) (data : List FloatVal) (iN : Nat) :
    Option (List FloatVal) := do
  let map ← valueCounts[iN]?
  let _ ← data[iN]?
  some (data.set iN (FloatVal.finite (modeScan (iterationOrder map))))

/-- The method `CurveNetworkEdgeScalarQuantity::updateNodeAverageValues`, as a function
from the prior content of `nodeAverageValues.data` to its new content.
`ensureHostBufferPopulated` and `markHostBufferUpdated` only synchronise the
host and device copies and do not change the host values. -/
def updateNodeAverageValues (iterationOrder : ValueCountMap → List (ℚ × Nat))
    (net : CurveNetwork) (dataType : DataType) (values : List ℚ)
    (nodeAverageValues : List FloatVal) : Option (List FloatVal) :=
  let data := resize nodeAverageValues net.nNodes
  if dataType = DataType.CATEGORICAL then do
    let valueCounts ←
      (List.range net.nEdges).foldlM (countEdgeStep net values) (List.replicate net.nNodes [])
    (List.range net.nNodes).foldlM (modeNodeStep iterationOrder valueCounts) data
  else do
    let data ← (List.range net.nEdges).foldlM (meanEdgeStep net values) data
    (List.range net.nNodes).foldlM (meanNodeStep net) data


/-- The values that edge `iE` contributes to node `n`: its value once for every
endpoint of the edge that is `n`. -/
def incidentValuesOfEdge (net : CurveNetwork) (values : List ℚ) (n iE : Nat) : List ℚ :=
  match net.edgeTailInds[iE]?, net.edgeTipInds[iE]?, values[iE]? with
  | some eTail, some eTip, some v =>
    (if eTail = n then [v] else []) ++ (if eTip = n then [v] else [])
  | _, _, _ => []

/-- The edge values incident on node `n`, one per incident edge endpoint, in
edge order. -/
def incidentValues (net : CurveNetwork) (values : List ℚ) (n : Nat) : List ℚ :=
  (List.range net.nEdges).flatMap (incidentValuesOfEdge net values n)

/-- Array sizes and index ranges that the code takes for granted. -/
structure WellFormed (net : CurveNetwork) (values : List ℚ) : Prop where
  tailLen : net.edgeTailInds.length = net.nEdges
  tipLen : net.edgeTipInds.length = net.nEdges
  valLen : values.length = net.nEdges
  tailLt : ∀ i ∈ net.edgeTailInds, i < net.nNodes
  tipLt : ∀ i ∈ net.edgeTipInds, i < net.nNodes

/-! ## Quantity lifecycle: `draw`, `refresh`, `createProgram` -/

/-- The concrete class of a curve-network scalar quantity; it selects the
`createProgram` override. -/
inductive QuantityKind where
  | node
  | edge
  deriving DecidableEq

/-- A program handle returned by `render::engine->requestShader`, identified by
the base program name and the ordered rule list it was requested with. -/
structure ShaderProgram where
  base : String
  rules : List String
  deriving DecidableEq

/-- The two program members of `CurveNetworkScalarQuantity`. -/
inductive ProgramSlot where
  | nodeProgram
  | edgeProgram
  deriving DecidableEq

/-- The buffers handed to `setAttribute`. -/
inductive AttributeSource where
  | values
  | valuesIndexedBy (indices : List Nat)
  | nodeAverageValues
  deriving DecidableEq

/-- Calls made by `draw` and `createProgram` on the engine, the parent
structure, the scalar base class and the programs, in program order. -/
inductive Call where
  | createProgram
  | requestShader (slot : ProgramSlot) (base : String) (rules : List String)
  | fillNodeGeometryBuffers (p : ProgramSlot)
  | fillEdgeGeometryBuffers (p : ProgramSlot)
  | updateNodeAverageValues
  | setAttribute (p : ProgramSlot) (name : String) (source : AttributeSource)
  | setTextureFromColormap (p : ProgramSlot) (name : String) (cMap : String)
  | setMaterial (p : ProgramSlot) (material : String)
  | setStructureUniforms (p : ProgramSlot)
  | setCurveNetworkEdgeUniforms (p : ProgramSlot)
  | setCurveNetworkNodeUniforms (p : ProgramSlot)
  | setScalarUniforms (p : ProgramSlot)
  | setMaterialUniforms (p : ProgramSlot) (material : String)
  | draw (p : ProgramSlot)
  deriving DecidableEq

/-- Functions of collaborators whose bodies are outside the sources at hand:
the rule-contribution calls of the engine, the scalar base class and the parent
structure, and the visiting order of an `unordered_map`. -/
structure Collaborators where
  addMaterialRules : String → List String → List String
  addScalarRules : List String → List String
  addCurveNetworkNodeRules : List String → List String
  addCurveNetworkEdgeRules : List String → List String
  iterationOrder : ValueCountMap → List (ℚ × Nat)

/-- State of a `CurveNetworkScalarQuantity` (either subclass). The field
`nodeAverageValues` is the host vector `nodeAverageValuesData` of the edge
subclass and stays empty for a node quantity. -/
structure CurveNetworkScalarQuantity where
  kind : QuantityKind
  name : String
  definedOn : String
  parent : CurveNetwork
  enabled : Bool
  dataType : DataType
  cMap : String
  values : List ℚ
  nodeAverageValues : List FloatVal
  nodeProgram : Option ShaderProgram
  edgeProgram : Option ShaderProgram
  deriving DecidableEq

/-- Constructor `CurveNetworkNodeScalarQuantity(name, values_, network_, dataType_)`.
The enabled flag and the colormap are initialised by base classes outside the
sources at hand and are passed in. -/
def CurveNetworkNodeScalarQuantity (name : String) (values_ : List ℚ) (network_ : CurveNetwork)
    (dataType_ : DataType) (enabled : Bool) (cMap : String) : CurveNetworkScalarQuantity :=
  { kind := QuantityKind.node, name := name, definedOn := "node", parent := network_,
    enabled := enabled, dataType := dataType_, cMap := cMap, values := values_,
    nodeAverageValues := [], nodeProgram := none, edgeProgram := none }

/-- Constructor `CurveNetworkEdgeScalarQuantity(name, values_, network_, dataType_)`;
`nodeAverageValuesData` starts as an empty vector. -/
def CurveNetworkEdgeScalarQuantity (name : String) (values_ : List ℚ) (network_ : CurveNetwork)
    (dataType_ : DataType) (enabled : Bool) (cMap : String) : CurveNetworkScalarQuantity :=
  { kind := QuantityKind.edge, name := name, definedOn := "edge", parent := network_,
    enabled := enabled, dataType := dataType_, cMap := cMap, values := values_,
    nodeAverageValues := [], nodeProgram := none, edgeProgram := none }

/-- The rule list both overrides pass to `requestShader` for the node program. -/
def nodeProgramRules (env : Collaborators) (q : CurveNetworkScalarQuantity) : List String :=
  env.addMaterialRules q.parent.material
    (env.addScalarRules (env.addCurveNetworkNodeRules ["SPHERE_PROPAGATE_VALUE"]))

/-- The rule list passed to `requestShader` for the edge program, from its
initial rule. -/
def edgeProgramRules (env : Collaborators) (q : CurveNetworkScalarQuantity) (initial : String) :
    List String :=
  env.addMaterialRules q.parent.material
    (env.addScalarRules (env.addCurveNetworkEdgeRules [initial]))

/-- The override `CurveNetworkNodeScalarQuantity::createProgram`. -/
def CurveNetworkNodeScalarQuantity.createProgram (env : Collaborators)
    (q : CurveNetworkScalarQuantity) : CurveNetworkScalarQuantity × List Call :=
  let nodeRules := nodeProgramRules env q
  let edgeRules := edgeProgramRules env q
    (if q.dataType = DataType.CATEGORICAL then "CYLINDER_PROPAGATE_NEAREST_VALUE"
      else "CYLINDER_PROPAGATE_BLEND_VALUE")
  ({ q with nodeProgram := some ⟨"RAYCAST_SPHERE", nodeRules⟩,
            edgeProgram := some ⟨"RAYCAST_CYLINDER", edgeRules⟩ },
   [Call.requestShader ProgramSlot.nodeProgram "RAYCAST_SPHERE" nodeRules,
    Call.requestShader ProgramSlot.edgeProgram "RAYCAST_CYLINDER" edgeRules,
    Call.fillNodeGeometryBuffers ProgramSlot.nodeProgram,
    Call.fillEdgeGeometryBuffers ProgramSlot.edgeProgram,
    Call.setAttribute ProgramSlot.nodeProgram "a_value" AttributeSource.values,
    Call.setAttribute ProgramSlot.edgeProgram "a_value_tail"
      (AttributeSource.valuesIndexedBy q.parent.edgeTailInds),
    Call.setAttribute ProgramSlot.edgeProgram "a_value_tip"
      (AttributeSource.valuesIndexedBy q.parent.edgeTipInds),
    Call.setTextureFromColormap ProgramSlot.edgeProgram "t_colormap" q.cMap,
    Call.setTextureFromColormap ProgramSlot.nodeProgram "t_colormap" q.cMap,
    Call.setMaterial ProgramSlot.nodeProgram q.parent.material,
    Call.setMaterial ProgramSlot.edgeProgram q.parent.material])

/-- The override `CurveNetworkEdgeScalarQuantity::createProgram`; it recomputes the node
aggregate through `updateNodeAverageValues`. -/
def CurveNetworkEdgeScalarQuantity.createProgram (env : Collaborators)
    (q : CurveNetworkScalarQuantity) : Option (CurveNetworkScalarQuantity × List Call) := do
  let nodeRules := nodeProgramRules env q
  let edgeRules := edgeProgramRules env q "CYLINDER_PROPAGATE_VALUE"
  let averaged ←
    updateNodeAverageValues env.iterationOrder q.parent q.dataType q.values q.nodeAverageValues
  some ({ q with nodeProgram := some ⟨"RAYCAST_SPHERE", nodeRules⟩,
                 edgeProgram := some ⟨"RAYCAST_CYLINDER", edgeRules⟩,
                 nodeAverageValues := averaged },
   [Call.requestShader ProgramSlot.nodeProgram "RAYCAST_SPHERE" nodeRules,
    Call.requestShader ProgramSlot.edgeProgram "RAYCAST_CYLINDER" edgeRules,
    Call.fillEdgeGeometryBuffers ProgramSlot.edgeProgram,
    Call.fillNodeGeometryBuffers ProgramSlot.nodeProgram,
    Call.updateNodeAverageValues,
    Call.setAttribute ProgramSlot.nodeProgram "a_value" AttributeSource.nodeAverageValues,
    Call.setAttribute ProgramSlot.edgeProgram "a_value" AttributeSource.values,
    Call.setTextureFromColormap ProgramSlot.edgeProgram "t_colormap" q.cMap,
    Call.setTextureFromColormap ProgramSlot.nodeProgram "t_colormap" q.cMap,
    Call.setMaterial ProgramSlot.nodeProgram q.parent.material,
    Call.setMaterial ProgramSlot.edgeProgram q.parent.material])

/-- The virtual call `createProgram()`, dispatched on the concrete class. -/
def CurveNetworkScalarQuantity.createProgram (env : Collaborators)
    (q : CurveNetworkScalarQuantity) : Option (CurveNetworkScalarQuantity × List Call) :=
  match q.kind with
  | QuantityKind.node => some (CurveNetworkNodeScalarQuantity.createProgram env q)
  | QuantityKind.edge => CurveNetworkEdgeScalarQuantity.createProgram env q

/-- The calls of `draw` after the program check: uniforms, then the two draw
calls. -/
def drawCalls (q : CurveNetworkScalarQuantity) : List Call :=
  [Call.setStructureUniforms ProgramSlot.edgeProgram,
   Call.setStructureUniforms ProgramSlot.nodeProgram,
   Call.setCurveNetworkEdgeUniforms ProgramSlot.edgeProgram,
   Call.setCurveNetworkNodeUniforms ProgramSlot.nodeProgram,
   Call.setScalarUniforms ProgramSlot.edgeProgram,
   Call.setScalarUniforms ProgramSlot.nodeProgram,
   Call.setMaterialUniforms ProgramSlot.edgeProgram q.parent.material,
   Call.setMaterialUniforms ProgramSlot.nodeProgram q.parent.material,
   Call.draw ProgramSlot.edgeProgram,
   Call.draw ProgramSlot.nodeProgram]

/-- The method `CurveNetworkScalarQuantity::draw`: the new state and the calls made, in
order. The call of `createProgram()` is logged as `Call.createProgram`, followed
by the calls made inside it. Dereferencing a null program is `none`. -/
def CurveNetworkScalarQuantity.draw (env : Collaborators) (q : CurveNetworkScalarQuantity) :
    Option (CurveNetworkScalarQuantity × List Call) :=
  if !q.enabled then some (q, [])
  else do
    let (q, built) ←
      if q.edgeProgram.isNone || q.nodeProgram.isNone then
        (q.createProgram env).map (fun r => (r.1, Call.createProgram :: r.2))
      else some (q, [])
    let _ ← q.edgeProgram
    let _ ← q.nodeProgram
    some (q, built ++ drawCalls q)

/-- Modelled from the spec: `Quantity::refresh`, the base-class method called
last by `CurveNetworkScalarQuantity::refresh`, is defined outside the sources at
hand. The spec gives `refresh()` no effect on a quantity other than discarding
its built programs, so the base call leaves the state as it is. -/
def Quantity.refresh (q : CurveNetworkScalarQuantity) : CurveNetworkScalarQuantity := q

/-- The method `CurveNetworkScalarQuantity::refresh`: resets both program pointers, then
calls the base-class `refresh`. -/
def CurveNetworkScalarQuantity.refresh (q : CurveNetworkScalarQuantity) :
    CurveNetworkScalarQuantity :=
  Quantity.refresh { q with nodeProgram := none, edgeProgram := none }

/-! ## Specification-side notions used by the theorems -/

/-- The count a map stores for `x`, reading an absent key as 0. -/
def ValueCountMap.countOf (map : ValueCountMap) (x : ℚ) : Nat :=
  (map.find x).getD 0

/-- Representation invariant of a count map: one entry per key, and every
stored count is positive. -/
def ValueCountMap.Valid (map : ValueCountMap) : Prop :=
  (map.map Prod.fst).Nodup ∧ ∀ entry ∈ map, 0 < entry.2

/-- The curve network of the spec's scenario: three nodes, edges `(0,1)` and
`(1,2)`, with its degree table. -/
def scenarioNetwork : CurveNetwork :=
  { nNodes := 3, nEdges := 2, edgeTailInds := [0, 1], edgeTipInds := [1, 2],
    nodeDegrees := [1, 2, 1], material := "clay" }

/-- The array accesses of `updateNodeAverageValues` stay in range for this
quantity: well-formed adjacency and value arrays, and a degree entry for every
node. -/
def CurveNetworkScalarQuantity.InBounds (q : CurveNetworkScalarQuantity) : Prop :=
  WellFormed q.parent q.values ∧ q.parent.nNodes ≤ q.parent.nodeDegrees.length

/-- Collaborators that contribute no rule of their own and visit a count map in
insertion order. -/
def plainCollaborators : Collaborators :=
  { addMaterialRules := fun _ rules => rules
    addScalarRules := fun rules => rules
    addCurveNetworkNodeRules := fun rules => rules
    addCurveNetworkEdgeRules := fun rules => rules
    iterationOrder := fun map => map }

/-- A network with a self-loop and an isolated node: edges `(0,1)`, `(1,1)` and
`(1,2)` on four nodes. -/
def selfLoopNetwork : CurveNetwork :=
  { nNodes := 4, nEdges := 3, edgeTailInds := [0, 1, 1], edgeTipInds := [1, 1, 2],
    nodeDegrees := [1, 4, 1, 0], material := "clay" }

/-! ## `PersistentValue<T>` -/

/-- The class `detail::PersistentCache<T>`: the wrapper around the global
`unordered_map<std::string, T>`. The map is only searched, written and erased by
key, so it is a function from names to optional values. -/
structure PersistentCache (T : Type) where
  cache : String → Option T

/-- The write `cache[name] = value`. -/
def PersistentCache.insert {T : Type} (c : PersistentCache T) (name : String) (value : T) :
    PersistentCache T :=
  ⟨fun n => if n = name then some value else c.cache n⟩

/-- The call `cache.erase(name)`. -/
def PersistentCache.erase {T : Type} (c : PersistentCache T) (name : String) :
    PersistentCache T :=
  ⟨fun n => if n = name then none else c.cache n⟩

/-- The members of `PersistentValue<T>`. -/
structure PersistentValue (T : Type) where
  name : String
  value : T
  holdsDefaultValue_ : Bool

/-- The constructor `PersistentValue(name_, value_)`, run against the global
cache `c`: the new cache and the constructed variable. -/
def PersistentValue.new {T : Type} (c : PersistentCache T) (name_ : String) (value_ : T) :
    PersistentCache T × PersistentValue T :=
  match c.cache name_ with
  | some cached => (c, { name := name_, value := cached, holdsDefaultValue_ := false })
  | none => (c.insert name_ value_, { name := name_, value := value_, holdsDefaultValue_ := true })

/-- The explicit setter `set(value_)`: stores the value in the variable and in the cache. -/
def PersistentValue.set {T : Type} (pv : PersistentValue T) (c : PersistentCache T) (value_ : T) :
    PersistentCache T × PersistentValue T :=
  (c.insert pv.name value_, { pv with value := value_, holdsDefaultValue_ := false })

/-- The operator `operator=(const U& value_)` (and its rvalue twin): `set(value_)`, with the
conversion from `U` to `T` explicit. -/
def PersistentValue.assign {T U : Type} (convert : U → T) (pv : PersistentValue T)
    (c : PersistentCache T) (value_ : U) : PersistentCache T × PersistentValue T :=
  pv.set c (convert value_)

/-- The operator `operator=(const PersistentValue<U>& other)` (and its rvalue twin):
`set(other.value)`. -/
def PersistentValue.assignFrom {T U : Type} (convert : U → T) (pv : PersistentValue T)
    (c : PersistentCache T) (other : PersistentValue U) :
    PersistentCache T × PersistentValue T :=
  pv.set c (convert other.value)

/-- The accessor `get()`, read through the returned reference. -/
def PersistentValue.get {T : Type} (pv : PersistentValue T) : T := pv.value

/-- A write through the reference returned by `get()`: the cache is not touched. -/
def PersistentValue.writeThroughGet {T : Type} (pv : PersistentValue T) (value_ : T) :
    PersistentValue T :=
  { pv with value := value_ }

/-- The method `manuallyChanged()`: `set(value)`. -/
def PersistentValue.manuallyChanged {T : Type} (pv : PersistentValue T) (c : PersistentCache T) :
    PersistentCache T × PersistentValue T :=
  pv.set c pv.value

/-- The method `clearCache()`: erases the cache entry and raises the default flag. -/
def PersistentValue.clearCache {T : Type} (pv : PersistentValue T) (c : PersistentCache T) :
    PersistentCache T × PersistentValue T :=
  (c.erase pv.name, { pv with holdsDefaultValue_ := true })

/-- The passive setter `setPassive(value_)`. -/
def PersistentValue.setPassive {T : Type} (pv : PersistentValue T) (c : PersistentCache T)
    (value_ : T) : PersistentCache T × PersistentValue T :=
  if pv.holdsDefaultValue_ then (c.insert pv.name value_, { pv with value := value_ })
  else (c, pv)

/-- The accessor `holdsDefaultValue()`. -/
def PersistentValue.holdsDefaultValue {T : Type} (pv : PersistentValue T) : Bool :=
  pv.holdsDefaultValue_

/-- The empty cache of a starting process. -/
def PersistentCache.empty (T : Type) : PersistentCache T := ⟨fun _ => none⟩

/-- The fresh enabled edge quantity of the spec's scenario. -/
def scenarioEdgeQuantity : CurveNetworkScalarQuantity :=
  CurveNetworkEdgeScalarQuantity "edge values" [2, 4] scenarioNetwork DataType.CONTINUOUS true
    "viridis"

/-! ## Sequences of operations on a `PersistentValue` -/

/-- One operation on a constructed `PersistentValue<T>`: the explicit setters
(`set`, the two assignment operators, `manuallyChanged`), a write through the
reference returned by `get()`, `setPassive` and `clearCache`. Assigned values are
carried after their conversion to `T`. -/
inductive PersistentOp (T : Type) where
  | set (value_ : T)
  | assign (value_ : T)
  | assignFrom (other : PersistentValue T)
  | manuallyChanged
  | writeThroughGet (value_ : T)
  | setPassive (value_ : T)
  | clearCache

/-- Runs one operation on the pair of the global cache and the variable. -/
def PersistentOp.apply {T : Type} (op : PersistentOp T)
    (state : PersistentCache T × PersistentValue T) : PersistentCache T × PersistentValue T :=
  match op with
  | PersistentOp.set value_ => state.2.set state.1 value_
  | PersistentOp.assign value_ => state.2.assign (fun u => u) state.1 value_
  | PersistentOp.assignFrom other => state.2.assignFrom (fun u => u) state.1 other
  | PersistentOp.manuallyChanged => state.2.manuallyChanged state.1
  | PersistentOp.writeThroughGet value_ => (state.1, state.2.writeThroughGet value_)
  | PersistentOp.setPassive value_ => state.2.setPassive state.1 value_
  | PersistentOp.clearCache => state.2.clearCache state.1

/-- Runs a sequence of operations, first to last. -/
def runOps {T : Type} (ops : List (PersistentOp T))
    (state : PersistentCache T × PersistentValue T) : PersistentCache T × PersistentValue T :=
  ops.foldl (fun s op => op.apply s) state

/-- The operations that set the value explicitly: `set`, an assignment,
`manuallyChanged`. -/
def PersistentOp.isExplicitSet {T : Type} : PersistentOp T → Bool
  | PersistentOp.set _ => true
  | PersistentOp.assign _ => true
  | PersistentOp.assignFrom _ => true
  | PersistentOp.manuallyChanged => true
  | _ => false

/-- Recognises `clearCache`. -/
def PersistentOp.isClearCache {T : Type} : PersistentOp T → Bool
  | PersistentOp.clearCache => true
  | _ => false

/-- The flag as the comment on the member `holdsDefaultValue_` describes it: true
if the value was set on construction (not pulled from the cache) and no operation
of the sequence set it explicitly, false otherwise. -/
def documentedHoldsDefault {T : Type} (pulledFromCache : Bool) (ops : List (PersistentOp T)) :
    Bool :=
  !pulledFromCache && !ops.any PersistentOp.isExplicitSet

/-- The flag with the reset by `clearCache` taken into account: an explicit set
lowers it, `clearCache` raises it, every other operation keeps it. -/
def flagAfter {T : Type} (initial : Bool) (ops : List (PersistentOp T)) : Bool :=
  ops.foldl (fun flag op =>
    if op.isExplicitSet then false else if op.isClearCache then true else flag) initial

/-! ## The tie-break of the Categorical branch -/

/-- The effect of the lambda `incrementValueCount` on the map it touches: insert
the value with count 1, or add 1 to its count. -/
def bumpCount (map : ValueCountMap) (val : ℚ) : ValueCountMap :=
  match map.find val with
  | none => map.assign val 1
  | some count => map.assign val (count + 1)

/-- The count map of one node after the lambda has run on the values of a list,
first to last. -/
def countMapOf (incident : List ℚ) : ValueCountMap :=
  incident.foldl bumpCount []

/-- The value with the highest count in a list that comes first in the list, and
0 for the empty list: the first-encountered resolution of a tie. -/
def firstEncounteredMode (incident : List ℚ) : ℚ :=
  (incident.find? (fun x =>
    incident.all (fun y => decide (incident.count y ≤ incident.count x)))).getD 0

/-! ## Reading the call log of `draw` and `createProgram` -/

/-- Recognises the draw call of a program. -/
def Call.isDraw : Call → Bool
  | Call.draw _ => true
  | _ => false

/-- The program on which a call binds or fills something (shader request,
geometry buffers, attribute, texture, material, uniforms); `none` for a draw call
and for the calls that act on no program. -/
def Call.boundProgram : Call → Option ProgramSlot
  | Call.requestShader slot _ _ => some slot
  | Call.fillNodeGeometryBuffers p => some p
  | Call.fillEdgeGeometryBuffers p => some p
  | Call.setAttribute p _ _ => some p
  | Call.setTextureFromColormap p _ _ => some p
  | Call.setMaterial p _ => some p
  | Call.setStructureUniforms p => some p
  | Call.setCurveNetworkEdgeUniforms p => some p
  | Call.setCurveNetworkNodeUniforms p => some p
  | Call.setScalarUniforms p => some p
  | Call.setMaterialUniforms p _ => some p
  | Call.createProgram => none
  | Call.updateNodeAverageValues => none
  | Call.draw _ => none

/-- The uniform bindings of `draw`: structure, curve-network edge/node, scalar
and material uniforms, on both programs. -/
def uniformBindings (q : CurveNetworkScalarQuantity) : List Call :=
  [Call.setStructureUniforms ProgramSlot.edgeProgram,
   Call.setStructureUniforms ProgramSlot.nodeProgram,
   Call.setCurveNetworkEdgeUniforms ProgramSlot.edgeProgram,
   Call.setCurveNetworkNodeUniforms ProgramSlot.nodeProgram,
   Call.setScalarUniforms ProgramSlot.edgeProgram,
   Call.setScalarUniforms ProgramSlot.nodeProgram,
   Call.setMaterialUniforms ProgramSlot.edgeProgram q.parent.material,
   Call.setMaterialUniforms ProgramSlot.nodeProgram q.parent.material]

/-- Recognises a call of `requestShader`. -/
def Call.isRequestShader : Call → Bool
  | Call.requestShader _ _ _ => true
  | _ => false

/-- The initial rule of the edge program as a function of the quantity kind and
the data type: nearest-value propagation for a Categorical node quantity, blended
propagation for any other node quantity, plain propagation for an edge
quantity. -/
def edgeInitialRule : QuantityKind → DataType → String
  | QuantityKind.node, DataType.CATEGORICAL => "CYLINDER_PROPAGATE_NEAREST_VALUE"
  | QuantityKind.node, DataType.CONTINUOUS => "CYLINDER_PROPAGATE_BLEND_VALUE"
  | QuantityKind.edge, _ => "CYLINDER_PROPAGATE_VALUE"

/-- The two shader requests of a build, as a function of the collaborators, the
material, the quantity kind and the data type: the node program from
`RAYCAST_SPHERE`, then the edge program from `RAYCAST_CYLINDER`, each with the
rule list `addMaterialRules(material, addScalarRules(structureRules([initial])))`. -/
def requestedShaders (env : Collaborators) (material : String) (kind : QuantityKind)
    (dataType : DataType) : List Call :=
  [Call.requestShader ProgramSlot.nodeProgram "RAYCAST_SPHERE"
    (env.addMaterialRules material
      (env.addScalarRules (env.addCurveNetworkNodeRules ["SPHERE_PROPAGATE_VALUE"]))),
   Call.requestShader ProgramSlot.edgeProgram "RAYCAST_CYLINDER"
    (env.addMaterialRules material
      (env.addScalarRules (env.addCurveNetworkEdgeRules [edgeInitialRule kind dataType])))]

/-! ## Theorems -/

theorem add_zero_val (x : FloatVal) : x.add 0 = x := by
  cases x <;> simp [FloatVal.add]

theorem add_add_val (x : FloatVal) (a b : ℚ) : (x.add a).add b = x.add (a + b) := by
  cases x <;> simp [FloatVal.add, add_assoc]

theorem divNat_zero_val (x : FloatVal) : x.divNat 0 = FloatVal.nonFinite := by
  cases x <;> simp [FloatVal.divNat]

theorem getD_set_zero (l : List FloatVal) (i n : Nat) (a : FloatVal) :
    (l.set i a).getD n (FloatVal.finite 0) =
      if i = n ∧ i < l.length then a else l.getD n (FloatVal.finite 0) := by
  simp only [List.getD_eq_getElem?_getD, List.getElem?_set]
  by_cases h : i = n
  · subst h
    by_cases h2 : i < l.length
    · simp [h2]
    · simp [h2, List.getElem?_eq_none (Nat.le_of_not_lt h2)]
  · simp [h]

theorem addAt_spec (data : List FloatVal) (ind : Nat) (val : ℚ) (h : ind < data.length) :
    ∃ d, addAt data ind val = some d ∧ d.length = data.length ∧
      ∀ n, d.getD n (FloatVal.finite 0) =
        (data.getD n (FloatVal.finite 0)).add (if ind = n then val else 0) := by
  refine ⟨data.set ind ((data[ind]).add val), ?_, by simp, ?_⟩
  · simp [addAt, List.getElem?_eq_getElem h]
  · intro n
    rw [getD_set_zero]
    by_cases hn : ind = n
    · subst hn
      simp [h, List.getD_eq_getElem?_getD, List.getElem?_eq_getElem h]
    · simp [hn, add_zero_val]

theorem incidentValuesOfEdge_sum (net : CurveNetwork) (values : List ℚ) (n iE : Nat)
    (eTail eTip : Nat) (v : ℚ) (h1 : net.edgeTailInds[iE]? = some eTail)
    (h2 : net.edgeTipInds[iE]? = some eTip) (h3 : values[iE]? = some v) :
    (incidentValuesOfEdge net values n iE).sum =
      (if eTail = n then v else 0) + (if eTip = n then v else 0) := by
  simp only [incidentValuesOfEdge, h1, h2, h3]
  by_cases a : eTail = n <;> by_cases b : eTip = n <;> simp [a, b]

theorem edge_reads {net : CurveNetwork} {values : List ℚ} (wf : WellFormed net values)
    {iE : Nat} (h : iE < net.nEdges) :
    ∃ eTail eTip v, net.edgeTailInds[iE]? = some eTail ∧ net.edgeTipInds[iE]? = some eTip ∧
      values[iE]? = some v ∧ eTail < net.nNodes ∧ eTip < net.nNodes := by
  have h1 : iE < net.edgeTailInds.length := by rw [wf.tailLen]; exact h
  have h2 : iE < net.edgeTipInds.length := by rw [wf.tipLen]; exact h
  have h3 : iE < values.length := by rw [wf.valLen]; exact h
  exact ⟨net.edgeTailInds[iE], net.edgeTipInds[iE], values[iE],
    List.getElem?_eq_getElem h1, List.getElem?_eq_getElem h2, List.getElem?_eq_getElem h3,
    wf.tailLt _ (List.getElem_mem _), wf.tipLt _ (List.getElem_mem _)⟩

theorem meanEdgeStep_spec {net : CurveNetwork} {values : List ℚ} (wf : WellFormed net values)
    (data : List FloatVal) (hd : data.length = net.nNodes) {iE : Nat} (h : iE < net.nEdges) :
    ∃ d, meanEdgeStep net values data iE = some d ∧ d.length = net.nNodes ∧
      ∀ n, d.getD n (FloatVal.finite 0) =
        (data.getD n (FloatVal.finite 0)).add (incidentValuesOfEdge net values n iE).sum := by
  obtain ⟨eTail, eTip, v, h1, h2, h3, lt1, lt2⟩ := edge_reads wf h
  obtain ⟨d1, e1, l1, g1⟩ := addAt_spec data eTail v (by rw [hd]; exact lt1)
  obtain ⟨d2, e2, l2, g2⟩ := addAt_spec d1 eTip v (by rw [l1, hd]; exact lt2)
  refine ⟨d2, ?_, by rw [l2, l1, hd], ?_⟩
  · simp [meanEdgeStep, h1, h2, h3, e1, e2]
  · intro n
    rw [g2, g1, incidentValuesOfEdge_sum net values n iE eTail eTip v h1 h2 h3, add_add_val]

theorem meanEdgeLoop_spec {net : CurveNetwork} {values : List ℚ} (wf : WellFormed net values)
    (data : List FloatVal) (hd : data.length = net.nNodes) (k : Nat) (hk : k ≤ net.nEdges) :
    ∃ d, (List.range k).foldlM (meanEdgeStep net values) data = some d ∧
      d.length = net.nNodes ∧
      ∀ n, d.getD n (FloatVal.finite 0) =
        (data.getD n (FloatVal.finite 0)).add
          ((List.range k).flatMap (incidentValuesOfEdge net values n)).sum := by
  induction k with
  | zero => exact ⟨data, by simp, hd, by simp [add_zero_val]⟩
  | succ k ih =>
    obtain ⟨d1, e1, l1, g1⟩ := ih (Nat.le_of_succ_le hk)
    obtain ⟨d2, e2, l2, g2⟩ := meanEdgeStep_spec wf d1 l1 (Nat.lt_of_succ_le hk)
    refine ⟨d2, ?_, l2, ?_⟩
    · simp [List.range_succ, List.foldlM_append, e1, e2]
    · intro n
      rw [g2, g1, List.range_succ, add_add_val]
      simp [List.flatMap_append]

theorem resize_length (data : List FloatVal) (n : Nat) : (resize data n).length = n := by
  simp only [resize, List.length_append, List.length_take, List.length_replicate]
  omega

theorem resize_nil_getD (n k : Nat) :
    (resize [] n).getD k (FloatVal.finite 0) = FloatVal.finite 0 := by
  simp only [resize, List.take_nil, List.nil_append, List.length_nil, Nat.sub_zero,
    List.getD_eq_getElem?_getD, List.getElem?_replicate]
  by_cases h : k < n <;> simp [h]

theorem meanNodeStep_spec (net : CurveNetwork) (hdeg : net.nNodes ≤ net.nodeDegrees.length)
    (data : List FloatVal) (hd : data.length = net.nNodes) {iN : Nat} (h : iN < net.nNodes) :
    ∃ d, meanNodeStep net data iN = some d ∧ d.length = net.nNodes ∧
      ∀ n, d.getD n (FloatVal.finite 0) =
        if n = iN then
          (if net.nodeDegrees.getD iN 0 = 0 then FloatVal.finite 0
            else (data.getD iN (FloatVal.finite 0)).divNat (net.nodeDegrees.getD iN 0))
        else data.getD n (FloatVal.finite 0) := by
  have h1 : iN < net.nodeDegrees.length := Nat.lt_of_lt_of_le h hdeg
  have h2 : iN < data.length := by rw [hd]; exact h
  have g1 : net.nodeDegrees.getD iN 0 = net.nodeDegrees[iN] := by
    simp [List.getD_eq_getElem?_getD, List.getElem?_eq_getElem h1]
  have g2 : data.getD iN (FloatVal.finite 0) = data[iN] := by
    simp [List.getD_eq_getElem?_getD, List.getElem?_eq_getElem h2]
  by_cases hz : net.nodeDegrees[iN] = 0
  · refine ⟨(data.set iN ((data[iN]).divNat net.nodeDegrees[iN])).set iN (FloatVal.finite 0),
      ?_, by simp [hd], ?_⟩
    · simp [meanNodeStep, List.getElem?_eq_getElem h1, List.getElem?_eq_getElem h2, hz]
    · intro n
      rw [getD_set_zero, getD_set_zero, g1]
      by_cases hn : n = iN
      · subst hn; simp [hz, h2]
      · have hn2 : ¬ iN = n := fun e => hn e.symm
        simp [hn, hn2]
  · refine ⟨data.set iN ((data[iN]).divNat net.nodeDegrees[iN]), ?_, by simp [hd], ?_⟩
    · simp [meanNodeStep, List.getElem?_eq_getElem h1, List.getElem?_eq_getElem h2, hz]
    · intro n
      rw [getD_set_zero, g1, g2]
      by_cases hn : n = iN
      · subst hn; simp [hz, h2]
      · have hn2 : ¬ iN = n := fun e => hn e.symm
        simp [hn, hn2]

theorem meanNodeLoop_spec (net : CurveNetwork) (hdeg : net.nNodes ≤ net.nodeDegrees.length)
    (data : List FloatVal) (hd : data.length = net.nNodes) (k : Nat) (hk : k ≤ net.nNodes) :
    ∃ d, (List.range k).foldlM (meanNodeStep net) data = some d ∧ d.length = net.nNodes ∧
      ∀ n, d.getD n (FloatVal.finite 0) =
        if n < k then
          (if net.nodeDegrees.getD n 0 = 0 then FloatVal.finite 0
            else (data.getD n (FloatVal.finite 0)).divNat (net.nodeDegrees.getD n 0))
        else data.getD n (FloatVal.finite 0) := by
  induction k with
  | zero => exact ⟨data, by simp, hd, by simp⟩
  | succ k ih =>
    obtain ⟨d1, e1, l1, g1⟩ := ih (Nat.le_of_succ_le hk)
    obtain ⟨d2, e2, l2, g2⟩ := meanNodeStep_spec net hdeg d1 l1 (Nat.lt_of_succ_le hk)
    refine ⟨d2, ?_, l2, ?_⟩
    · simp [List.range_succ, List.foldlM_append, e1, e2]
    · intro n
      rw [g2, g1, g1]
      by_cases hn : n = k
      · subst hn; simp
      · by_cases hlt : n < k
        · have : n < k + 1 := by omega
          simp [hn, hlt, this]
        · have : ¬ n < k + 1 := by omega
          simp [hn, hlt, this]

/-- The Continuous branch on an arbitrary prior buffer: every node ends with
(prior entry after the resize + sum of incident values) / degree, or 0 when its
degree is 0. -/
theorem updateNodeAverageValues_continuous (iterationOrder : ValueCountMap → List (ℚ × Nat))
    {net : CurveNetwork} {values : List ℚ} (wf : WellFormed net values)
    (hdeg : net.nNodes ≤ net.nodeDegrees.length) (prior : List FloatVal) :
    ∃ r, updateNodeAverageValues iterationOrder net DataType.CONTINUOUS values prior = some r ∧
      r.length = net.nNodes ∧
      ∀ n, n < net.nNodes → r.getD n (FloatVal.finite 0) =
        if net.nodeDegrees.getD n 0 = 0 then FloatVal.finite 0
        else (((resize prior net.nNodes).getD n (FloatVal.finite 0)).add
          (incidentValues net values n).sum).divNat (net.nodeDegrees.getD n 0) := by
  obtain ⟨d1, e1, l1, g1⟩ :=
    meanEdgeLoop_spec wf (resize prior net.nNodes) (resize_length _ _) net.nEdges (Nat.le_refl _)
  obtain ⟨d2, e2, l2, g2⟩ := meanNodeLoop_spec net hdeg d1 l1 net.nNodes (Nat.le_refl _)
  refine ⟨d2, ?_, l2, ?_⟩
  · simp [updateNodeAverageValues, e1, e2]
  · intro n hn
    rw [g2, g1]
    simp [hn, incidentValues]

/-! ### Count maps -/

theorem find_nil (x : ℚ) : ValueCountMap.find [] x = none := rfl

theorem find_cons (k : ℚ) (c : Nat) (t : ValueCountMap) (x : ℚ) :
    ValueCountMap.find ((k, c) :: t) x = if k = x then some c else ValueCountMap.find t x := by
  unfold ValueCountMap.find
  by_cases h : k = x
  · simp [List.find?, h]
  · simp [List.find?, h]

theorem find_eq_none_iff (map : ValueCountMap) (x : ℚ) :
    map.find x = none ↔ x ∉ map.map Prod.fst := by
  induction map with
  | nil => simp [find_nil]
  | cons e t ih =>
    obtain ⟨k, c⟩ := e
    rw [find_cons]
    by_cases h : k = x
    · simp [h]
    · have h2 : ¬ x = k := fun e => h e.symm
      simp only [h, if_false, ih, List.map_cons, List.mem_cons, h2, false_or]

theorem mem_iff_find {map : ValueCountMap} (hnd : (map.map Prod.fst).Nodup) (x : ℚ) (c : Nat) :
    (x, c) ∈ map ↔ map.find x = some c := by
  induction map with
  | nil => simp [find_nil]
  | cons e t ih =>
    obtain ⟨k, c0⟩ := e
    rw [List.map_cons, List.nodup_cons] at hnd
    rw [find_cons]
    by_cases h : k = x
    · subst h
      simp only [if_true, Option.some.injEq, List.mem_cons, Prod.mk.injEq, true_and]
      constructor
      · rintro (h1 | h1)
        · exact h1.symm
        · exact absurd (List.mem_map_of_mem Prod.fst h1) hnd.1
      · intro h1; exact Or.inl h1.symm
    · have h2 : ¬ x = k := fun e => h e.symm
      simp only [h, if_false, List.mem_cons, Prod.mk.injEq, h2, false_and, false_or]
      exact ih hnd.2

theorem find_map_assign (map : ValueCountMap) (val : ℚ) (c : Nat) (x : ℚ) :
    ValueCountMap.find (map.map (fun entry => if entry.1 = val then (entry.1, c) else entry)) x =
      if x = val then (map.find val).map (fun _ => c) else map.find x := by
  induction map with
  | nil => simp [find_nil]
  | cons e t ih =>
    obtain ⟨k, c0⟩ := e
    by_cases hk : k = val
    · subst hk
      simp only [List.map_cons, if_true, find_cons, ih]
      by_cases hx : k = x
      · subst hx; simp
      · have h2 : ¬ x = k := fun e => hx e.symm
        simp [hx, h2]
    · simp only [List.map_cons, hk, if_false, find_cons, ih]
      by_cases hx : k = x
      · subst hx; simp [hk]
      · simp [hx]

theorem find_append_single (map : ValueCountMap) (val : ℚ) (c : Nat) (x : ℚ) :
    ValueCountMap.find (map ++ [(val, c)]) x =
      match map.find x with
      | some c0 => some c0
      | none => if val = x then some c else none := by
  induction map with
  | nil => simp [find_nil, find_cons]
  | cons e t ih =>
    obtain ⟨k, c0⟩ := e
    rw [List.cons_append, find_cons, find_cons, ih]
    by_cases hx : k = x
    · simp [hx]
    · simp [hx]

theorem find_assign (map : ValueCountMap) (val : ℚ) (c : Nat) (x : ℚ) :
    (map.assign val c).find x = if x = val then some c else map.find x := by
  unfold ValueCountMap.assign
  cases h : map.find val with
  | none =>
    simp only [find_append_single]
    by_cases hx : x = val
    · subst hx; simp [h]
    · have h2 : ¬ val = x := fun e => hx e.symm
      simp only [hx, h2, if_false]
      cases map.find x <;> rfl
  | some c0 =>
    simp only [find_map_assign, h, Option.map_some']

theorem keys_map_assign (map : ValueCountMap) (val : ℚ) (c : Nat) :
    (map.map (fun entry => if entry.1 = val then (entry.1, c) else entry)).map Prod.fst =
      map.map Prod.fst := by
  rw [List.map_map]
  apply List.map_congr_left
  intro e _
  by_cases h : e.1 = val <;> simp [h]

theorem valid_assign {map : ValueCountMap} (hv : map.Valid) (val : ℚ) {c : Nat} (hc : 0 < c) :
    (map.assign val c).Valid := by
  obtain ⟨hnd, hpos⟩ := hv
  unfold ValueCountMap.assign
  cases h : map.find val with
  | none =>
    have hnot : val ∉ map.map Prod.fst := (find_eq_none_iff map val).1 h
    refine ⟨?_, ?_⟩
    · rw [List.map_append, List.nodup_append]
      refine ⟨hnd, by simp, ?_⟩
      intro a ha hb
      simp only [List.map_cons, List.map_nil, List.mem_singleton] at hb
      subst hb
      exact hnot ha
    · intro e he
      rcases List.mem_append.1 he with h1 | h1
      · exact hpos e h1
      · simp only [List.mem_singleton] at h1
        subst h1; exact hc
  | some c0 =>
    refine ⟨?_, ?_⟩
    · show ((map.map _).map Prod.fst).Nodup
      rw [keys_map_assign]; exact hnd
    · intro e he
      obtain ⟨e0, he0, rfl⟩ := List.mem_map.1 he
      by_cases hk : e0.1 = val
      · simp [hk, hc]
      · simp [hk, hpos e0 he0]

/-- The effect of the lambda on the map it touches. -/
theorem countOf_increment (map : ValueCountMap) (val x : ℚ) :
    ValueCountMap.countOf
      (match map.find val with
        | none => map.assign val 1
        | some count => map.assign val (count + 1)) x =
      map.countOf x + if x = val then 1 else 0 := by
  unfold ValueCountMap.countOf
  cases h : map.find val with
  | none =>
    simp only [find_assign]
    by_cases hx : x = val
    · subst hx; simp [h]
    · simp [hx]
  | some c0 =>
    simp only [find_assign]
    by_cases hx : x = val
    · subst hx; simp [h]
    · simp [hx]

theorem valid_increment {map : ValueCountMap} (hv : map.Valid) (val : ℚ) :
    ValueCountMap.Valid
      (match map.find val with
        | none => map.assign val 1
        | some count => map.assign val (count + 1)) := by
  cases map.find val with
  | none => exact valid_assign hv val Nat.one_pos
  | some c0 => exact valid_assign hv val (Nat.succ_pos c0)

/-! ### The counting loop -/

theorem getD_set_map (l : List ValueCountMap) (i n : Nat) (a : ValueCountMap) :
    (l.set i a).getD n [] = if i = n ∧ i < l.length then a else l.getD n [] := by
  simp only [List.getD_eq_getElem?_getD, List.getElem?_set]
  by_cases h : i = n
  · subst h
    by_cases h2 : i < l.length
    · simp [h2]
    · simp [h2, List.getElem?_eq_none (Nat.le_of_not_lt h2)]
  · simp [h]

theorem incrementValueCount_spec (valueCounts : List ValueCountMap) (ind : Nat) (val : ℚ)
    (h : ind < valueCounts.length) (hv : ∀ n, (valueCounts.getD n []).Valid) :
    ∃ vc, incrementValueCount valueCounts ind val = some vc ∧ vc.length = valueCounts.length ∧
      (∀ n, (vc.getD n []).Valid) ∧
      ∀ n x, (vc.getD n []).countOf x =
        (valueCounts.getD n []).countOf x + if ind = n ∧ x = val then 1 else 0 := by
  have hget : valueCounts.getD ind [] = valueCounts[ind] := by
    simp [List.getD_eq_getElem?_getD, List.getElem?_eq_getElem h]
  refine ⟨valueCounts.set ind
      (match (valueCounts[ind]).find val with
        | none => (valueCounts[ind]).assign val 1
        | some count => (valueCounts[ind]).assign val (count + 1)), ?_, by simp, ?_, ?_⟩
  · simp only [incrementValueCount, List.getElem?_eq_getElem h]
    cases (valueCounts[ind]).find val <;> rfl
  · intro n
    rw [getD_set_map]
    by_cases hn : ind = n ∧ ind < valueCounts.length
    · rw [if_pos hn]
      have := hv ind
      rw [hget] at this
      exact valid_increment this val
    · rw [if_neg hn]; exact hv n
  · intro n x
    rw [getD_set_map]
    by_cases hn : ind = n
    · subst hn
      simp only [h, and_self, if_true, true_and, countOf_increment, hget]
    · simp [hn]

theorem incidentValuesOfEdge_count (net : CurveNetwork) (values : List ℚ) (n iE : Nat)
    (eTail eTip : Nat) (v x : ℚ) (h1 : net.edgeTailInds[iE]? = some eTail)
    (h2 : net.edgeTipInds[iE]? = some eTip) (h3 : values[iE]? = some v) :
    (incidentValuesOfEdge net values n iE).count x =
      (if eTail = n ∧ x = v then 1 else 0) + (if eTip = n ∧ x = v then 1 else 0) := by
  simp only [incidentValuesOfEdge, h1, h2, h3]
  by_cases a : eTail = n <;> by_cases b : eTip = n <;> by_cases c : x = v <;>
    simp [a, b, c, List.count_cons, List.count_nil]

theorem countEdgeStep_spec {net : CurveNetwork} {values : List ℚ} (wf : WellFormed net values)
    (valueCounts : List ValueCountMap) (hl : valueCounts.length = net.nNodes)
    (hv : ∀ n, (valueCounts.getD n []).Valid) {iE : Nat} (h : iE < net.nEdges) :
    ∃ vc, countEdgeStep net values valueCounts iE = some vc ∧ vc.length = net.nNodes ∧
      (∀ n, (vc.getD n []).Valid) ∧
      ∀ n x, (vc.getD n []).countOf x =
        (valueCounts.getD n []).countOf x + (incidentValuesOfEdge net values n iE).count x := by
  obtain ⟨eTail, eTip, v, h1, h2, h3, lt1, lt2⟩ := edge_reads wf h
  obtain ⟨d1, e1, l1, v1, g1⟩ :=
    incrementValueCount_spec valueCounts eTail v (by rw [hl]; exact lt1) hv
  obtain ⟨d2, e2, l2, v2, g2⟩ :=
    incrementValueCount_spec d1 eTip v (by rw [l1, hl]; exact lt2) v1
  refine ⟨d2, ?_, by rw [l2, l1, hl], v2, ?_⟩
  · simp [countEdgeStep, h1, h2, h3, e1, e2]
  · intro n x
    rw [g2, g1, incidentValuesOfEdge_count net values n iE eTail eTip v x h1 h2 h3]
    ring

theorem countEdgeLoop_spec {net : CurveNetwork} {values : List ℚ} (wf : WellFormed net values)
    (k : Nat) (hk : k ≤ net.nEdges) :
    ∃ vc, (List.range k).foldlM (countEdgeStep net values) (List.replicate net.nNodes []) =
        some vc ∧ vc.length = net.nNodes ∧ (∀ n, (vc.getD n []).Valid) ∧
      ∀ n x, (vc.getD n []).countOf x =
        ((List.range k).flatMap (incidentValuesOfEdge net values n)).count x := by
  induction k with
  | zero =>
    have hnil : ∀ n, (List.replicate net.nNodes ([] : ValueCountMap)).getD n [] = [] := by
      intro n
      simp only [List.getD_eq_getElem?_getD, List.getElem?_replicate]
      by_cases hn : n < net.nNodes <;> simp [hn]
    refine ⟨List.replicate net.nNodes [], by simp, by simp, ?_, ?_⟩
    · intro n; rw [hnil]; exact ⟨by simp, by simp⟩
    · intro n x; rw [hnil]; simp [ValueCountMap.countOf, find_nil]
  | succ k ih =>
    obtain ⟨d1, e1, l1, v1, g1⟩ := ih (Nat.le_of_succ_le hk)
    obtain ⟨d2, e2, l2, v2, g2⟩ := countEdgeStep_spec wf d1 l1 v1 (Nat.lt_of_succ_le hk)
    refine ⟨d2, ?_, l2, v2, ?_⟩
    · simp [List.range_succ, List.foldlM_append, e1, e2]
    · intro n x
      rw [g2, g1, List.range_succ]
      simp [List.flatMap_append, List.count_append]

/-! ### The scan for the most frequent value -/

theorem modeScan_fold (entries : List (ℚ × Nat)) (acc : Nat × ℚ) :
    (entries.foldl modeScanStep acc = acc ∧ ∀ e ∈ entries, e.2 ≤ acc.1) ∨
    (((entries.foldl modeScanStep acc).2, (entries.foldl modeScanStep acc).1) ∈ entries ∧
      acc.1 < (entries.foldl modeScanStep acc).1 ∧
      ∀ e ∈ entries, e.2 ≤ (entries.foldl modeScanStep acc).1) := by
  induction entries generalizing acc with
  | nil => left; simp
  | cons e t ih =>
    rw [List.foldl_cons]
    by_cases hgt : e.2 > acc.1
    · have hstep : modeScanStep acc e = (e.2, e.1) := by simp [modeScanStep, hgt]
      rw [hstep]
      right
      rcases ih (e.2, e.1) with ⟨h1, h2⟩ | ⟨h1, h2, h3⟩
      · rw [h1]
        refine ⟨by simp, hgt, ?_⟩
        intro e0 he0
        rcases List.mem_cons.1 he0 with rfl | h4
        · exact Nat.le_refl _
        · exact h2 e0 h4
      · refine ⟨List.mem_cons_of_mem _ h1, Nat.lt_trans hgt h2, ?_⟩
        intro e0 he0
        rcases List.mem_cons.1 he0 with rfl | h4
        · exact Nat.le_of_lt h2
        · exact h3 e0 h4
    · have hstep : modeScanStep acc e = acc := by simp [modeScanStep, hgt]
      rw [hstep]
      rcases ih acc with ⟨h1, h2⟩ | ⟨h1, h2, h3⟩
      · left
        refine ⟨h1, ?_⟩
        intro e0 he0
        rcases List.mem_cons.1 he0 with rfl | h4
        · exact Nat.le_of_not_lt hgt
        · exact h2 e0 h4
      · right
        refine ⟨List.mem_cons_of_mem _ h1, h2, ?_⟩
        intro e0 he0
        rcases List.mem_cons.1 he0 with rfl | h4
        · exact Nat.le_trans (Nat.le_of_not_lt hgt) (Nat.le_of_lt h2)
        · exact h3 e0 h4

theorem modeScan_nil : modeScan [] = 0 := rfl

theorem modeScan_mem {entries : List (ℚ × Nat)} (hne : entries ≠ [])
    (hpos : ∀ e ∈ entries, 0 < e.2) :
    ∃ c, (modeScan entries, c) ∈ entries ∧ ∀ e ∈ entries, e.2 ≤ c := by
  rcases modeScan_fold entries (0, 0) with ⟨_, h2⟩ | ⟨h1, _, h3⟩
  · obtain ⟨e, he⟩ := List.exists_mem_of_ne_nil entries hne
    have := hpos e he
    have := h2 e he
    simp at this
    omega
  · exact ⟨_, h1, h3⟩

/-! ### The Categorical branch as a whole -/

theorem eq_map_range_of_getD (r : List FloatVal) (f : Nat → FloatVal) (N : Nat)
    (hl : r.length = N) (h : ∀ n, n < N → r.getD n (FloatVal.finite 0) = f n) :
    r = (List.range N).map f := by
  apply List.ext_getElem
  · simp [hl]
  · intro n h1 h2
    have hn : n < N := by rw [← hl]; exact h1
    have := h n hn
    rw [List.getD_eq_getElem?_getD, List.getElem?_eq_getElem h1] at this
    simpa using this

theorem modeNodeStep_spec (iterationOrder : ValueCountMap → List (ℚ × Nat))
    (valueCounts : List ValueCountMap) (data : List FloatVal)
    (hl : valueCounts.length = data.length) {iN : Nat} (h : iN < data.length) :
    ∃ d, modeNodeStep iterationOrder valueCounts data iN = some d ∧ d.length = data.length ∧
      ∀ n, d.getD n (FloatVal.finite 0) =
        if n = iN then FloatVal.finite (modeScan (iterationOrder (valueCounts.getD iN [])))
        else data.getD n (FloatVal.finite 0) := by
  have h1 : iN < valueCounts.length := by rw [hl]; exact h
  have g1 : valueCounts.getD iN [] = valueCounts[iN] := by
    simp [List.getD_eq_getElem?_getD, List.getElem?_eq_getElem h1]
  refine ⟨data.set iN (FloatVal.finite (modeScan (iterationOrder valueCounts[iN]))), ?_,
    by simp, ?_⟩
  · simp [modeNodeStep, List.getElem?_eq_getElem h1, List.getElem?_eq_getElem h]
  · intro n
    rw [getD_set_zero, g1]
    by_cases hn : n = iN
    · subst hn; simp [h]
    · have hn2 : ¬ iN = n := fun e => hn e.symm
      simp [hn, hn2]

theorem modeNodeLoop_spec (iterationOrder : ValueCountMap → List (ℚ × Nat))
    (valueCounts : List ValueCountMap) (data : List FloatVal)
    (hl : valueCounts.length = data.length) (k : Nat) (hk : k ≤ data.length) :
    ∃ d, (List.range k).foldlM (modeNodeStep iterationOrder valueCounts) data = some d ∧
      d.length = data.length ∧
      ∀ n, d.getD n (FloatVal.finite 0) =
        if n < k then FloatVal.finite (modeScan (iterationOrder (valueCounts.getD n [])))
        else data.getD n (FloatVal.finite 0) := by
  induction k with
  | zero => exact ⟨data, by simp, rfl, by simp⟩
  | succ k ih =>
    obtain ⟨d1, e1, l1, g1⟩ := ih (Nat.le_of_succ_le hk)
    obtain ⟨d2, e2, l2, g2⟩ := modeNodeStep_spec iterationOrder valueCounts d1 (by rw [hl, l1])
      (show k < d1.length by rw [l1]; exact Nat.lt_of_succ_le hk)
    refine ⟨d2, ?_, by rw [l2, l1], ?_⟩
    · simp [List.range_succ, List.foldlM_append, e1, e2]
    · intro n
      rw [g2, g1]
      by_cases hn : n = k
      · subst hn; simp
      · by_cases hlt : n < k
        · have : n < k + 1 := by omega
          simp [hn, hlt, this]
        · have : ¬ n < k + 1 := by omega
          simp [hn, hlt, this]

/-- The Categorical branch on an arbitrary prior buffer: the result is the list
of the scans of the per-node count maps, and each map counts exactly the
incidences of each value at its node. -/
theorem updateNodeAverageValues_categorical (iterationOrder : ValueCountMap → List (ℚ × Nat))
    {net : CurveNetwork} {values : List ℚ} (wf : WellFormed net values)
    (prior : List FloatVal) :
    ∃ vc : List ValueCountMap,
      updateNodeAverageValues iterationOrder net DataType.CATEGORICAL values prior =
        some ((List.range net.nNodes).map
          (fun n => FloatVal.finite (modeScan (iterationOrder (vc.getD n []))))) ∧
      (List.range net.nEdges).foldlM (countEdgeStep net values) (List.replicate net.nNodes []) =
        some vc ∧
      (∀ n, (vc.getD n []).Valid) ∧
      ∀ n x, (vc.getD n []).countOf x = (incidentValues net values n).count x := by
  obtain ⟨vc, e1, l1, v1, g1⟩ := countEdgeLoop_spec wf net.nEdges (Nat.le_refl _)
  have hres : (resize prior net.nNodes).length = net.nNodes := resize_length _ _
  obtain ⟨d2, e2, l2, g2⟩ := modeNodeLoop_spec iterationOrder vc (resize prior net.nNodes)
    (by rw [l1, hres]) net.nNodes (by rw [hres])
  refine ⟨vc, ?_, e1, v1, g1⟩
  have hd2 : d2 = (List.range net.nNodes).map
      (fun n => FloatVal.finite (modeScan (iterationOrder (vc.getD n [])))) := by
    apply eq_map_range_of_getD d2 _ net.nNodes (by rw [l2, hres])
    intro n hn
    rw [g2]; simp [hn]
  rw [← hd2]
  simp [updateNodeAverageValues, e1, e2]

/-- What the scan returns on a valid count map whose counts are those of the
list `incident`, whatever the visiting order. -/
theorem modeScan_of_counts {iterationOrder : ValueCountMap → List (ℚ × Nat)}
    (hperm : ∀ m, (iterationOrder m).Perm m) {map : ValueCountMap} (hv : map.Valid)
    {incident : List ℚ} (hc : ∀ x, map.countOf x = incident.count x) :
    (incident = [] → modeScan (iterationOrder map) = 0) ∧
    (incident ≠ [] → modeScan (iterationOrder map) ∈ incident ∧
      ∀ x, incident.count x ≤ incident.count (modeScan (iterationOrder map))) := by
  have hfind : ∀ x c, (x, c) ∈ map → incident.count x = c := by
    intro x c hm
    have := (mem_iff_find hv.1 x c).1 hm
    rw [← hc, ValueCountMap.countOf, this]; rfl
  constructor
  · intro hnil
    have hmap : map = [] := by
      cases map with
      | nil => rfl
      | cons e t =>
        have h1 := hfind e.1 e.2 (List.mem_cons_self _ _)
        have h2 := hv.2 e (List.mem_cons_self _ _)
        rw [hnil] at h1
        simp at h1
        omega
    have : iterationOrder map = [] := by
      have := hperm map
      rw [hmap] at this
      rw [hmap]
      exact List.Perm.eq_nil this
    rw [this]; rfl
  · intro hne
    obtain ⟨x0, hx0⟩ := List.exists_mem_of_ne_nil incident hne
    have hx0c : 0 < incident.count x0 := List.count_pos_iff.2 hx0
    have hmapne : map ≠ [] := by
      intro hm
      have := hc x0
      rw [hm] at this
      simp [ValueCountMap.countOf, find_nil] at this
      omega
    have hiter : iterationOrder map ≠ [] := by
      intro hm
      have := hperm map
      rw [hm] at this
      exact hmapne (List.Perm.eq_nil this.symm)
    have hpos : ∀ e ∈ iterationOrder map, 0 < e.2 :=
      fun e he => hv.2 e ((hperm map).mem_iff.1 he)
    obtain ⟨c, hmem, hmax⟩ := modeScan_mem hiter hpos
    have hmem2 : (modeScan (iterationOrder map), c) ∈ map := (hperm map).mem_iff.1 hmem
    have hcm : incident.count (modeScan (iterationOrder map)) = c := hfind _ _ hmem2
    have hcpos : 0 < c := hv.2 _ hmem2
    refine ⟨List.count_pos_iff.1 (by rw [hcm]; exact hcpos), ?_⟩
    intro x
    rw [hcm]
    cases hf : map.find x with
    | none =>
      have := hc x
      rw [ValueCountMap.countOf, hf] at this
      simp at this
      omega
    | some c1 =>
      have hm1 : (x, c1) ∈ map := (mem_iff_find hv.1 x c1).2 hf
      have := hfind x c1 hm1
      rw [this]
      exact hmax (x, c1) ((hperm map).mem_iff.2 hm1)

/-! ### Claims on `updateNodeAverageValues` -/

theorem wellFormed_scenario (values : List ℚ) (h : values.length = 2) :
    WellFormed scenarioNetwork values :=
  ⟨rfl, rfl, h, by decide, by decide⟩

/-- C1: on a freshly constructed edge scalar quantity (empty derived buffer) with
Continuous data, on a network whose tail/tip indices are below `nNodes` and whose
degree table counts the incident edge endpoints, `updateNodeAverageValues`
returns a buffer of `nNodes` entries in which a node of degree `d > 0` holds the
sum of its incident edge values divided by `d`, and a node of degree 0 holds 0
(the non-finite quotient that its division by 0 leaves is overwritten). -/
theorem updateNodeAverageValues_fresh_continuous_mean
    (iterationOrder : ValueCountMap → List (ℚ × Nat)) (name : String) (net : CurveNetwork)
    (values : List ℚ) (enabled : Bool) (cMap : String) (wf : WellFormed net values)
    (hdeg : ∀ n, n < net.nNodes →
      net.nodeDegrees[n]? = some (incidentValues net values n).length) :
    ∃ r, updateNodeAverageValues iterationOrder net DataType.CONTINUOUS values
        (CurveNetworkEdgeScalarQuantity name values net DataType.CONTINUOUS enabled
          cMap).nodeAverageValues = some r ∧
      r.length = net.nNodes ∧
      ∀ n d, n < net.nNodes → net.nodeDegrees[n]? = some d →
        (0 < d →
          r[n]? = some (FloatVal.finite ((incidentValues net values n).sum / (d : ℚ)))) ∧
        (d = 0 → r[n]? = some (FloatVal.finite 0)) := by
  have hlen : net.nNodes ≤ net.nodeDegrees.length := by
    by_contra hlt
    have h1 : net.nodeDegrees.length < net.nNodes := Nat.lt_of_not_le hlt
    have h2 := hdeg _ h1
    rw [List.getElem?_eq_none (Nat.le_refl _)] at h2
    exact Option.noConfusion h2
  obtain ⟨r, e, l, g⟩ := updateNodeAverageValues_continuous iterationOrder wf hlen []
  refine ⟨r, e, l, ?_⟩
  intro n d hn hd
  have hn2 : n < r.length := by rw [l]; exact hn
  have hg := g n hn
  have hdD : net.nodeDegrees.getD n 0 = d := by
    rw [List.getD_eq_getElem?_getD, hd]; rfl
  rw [hdD, resize_nil_getD, List.getD_eq_getElem?_getD,
    List.getElem?_eq_getElem hn2, Option.getD_some] at hg
  rw [List.getElem?_eq_getElem hn2, hg]
  constructor
  · intro hpos
    have : d ≠ 0 := Nat.pos_iff_ne_zero.1 hpos
    simp [this, FloatVal.add, FloatVal.divNat]
  · intro hz
    simp [hz]

/-- C1, on the scenario of the spec: edges `(0,1): 2.0` and `(1,2): 4.0` give the
node values 2.0, 3.0, 4.0; and on the network with the isolated node 3, of
degree 0, that node ends with 0. -/
theorem updateNodeAverageValues_fresh_continuous_mean_witness :
    WellFormed scenarioNetwork [2, 4] ∧
    (∀ n, n < scenarioNetwork.nNodes → scenarioNetwork.nodeDegrees[n]? =
      some (incidentValues scenarioNetwork [2, 4] n).length) ∧
    (∃ r, updateNodeAverageValues id scenarioNetwork DataType.CONTINUOUS [2, 4]
        (CurveNetworkEdgeScalarQuantity "q" [2, 4] scenarioNetwork DataType.CONTINUOUS true
          "viridis").nodeAverageValues = some r ∧
      r.length = scenarioNetwork.nNodes ∧
      ∀ n d, n < scenarioNetwork.nNodes → scenarioNetwork.nodeDegrees[n]? = some d →
        (0 < d → r[n]? =
          some (FloatVal.finite ((incidentValues scenarioNetwork [2, 4] n).sum / (d : ℚ)))) ∧
        (d = 0 → r[n]? = some (FloatVal.finite 0))) ∧
    updateNodeAverageValues id scenarioNetwork DataType.CONTINUOUS [2, 4] [] =
      some [FloatVal.finite 2, FloatVal.finite 3, FloatVal.finite 4] ∧
    updateNodeAverageValues id selfLoopNetwork DataType.CONTINUOUS [5, 5, 7] [] =
      some [FloatVal.finite 5, FloatVal.finite (11 / 2), FloatVal.finite 7,
        FloatVal.finite 0] := by
  have hdeg : ∀ n, n < scenarioNetwork.nNodes → scenarioNetwork.nodeDegrees[n]? =
      some (incidentValues scenarioNetwork [2, 4] n).length := by decide
  refine ⟨wellFormed_scenario _ rfl, hdeg,
    updateNodeAverageValues_fresh_continuous_mean id "q" scenarioNetwork [2, 4] true "viridis"
      (wellFormed_scenario _ rfl) hdeg, ?_, ?_⟩
  · simp [updateNodeAverageValues, scenarioNetwork, resize, List.range, List.range.loop,
      meanEdgeStep, meanNodeStep, addAt, FloatVal.add, FloatVal.divNat]
    norm_num
  · simp [updateNodeAverageValues, selfLoopNetwork, resize, List.range, List.range.loop,
      meanEdgeStep, meanNodeStep, addAt, FloatVal.add, FloatVal.divNat]
    norm_num

/-- C2: for Categorical data on a network whose tail/tip indices are below
`nNodes`, whatever the prior buffer and whatever order the count maps are visited
in, `updateNodeAverageValues` returns a buffer of `nNodes` entries in which a node
with an incident edge holds a value that occurs on an incident edge and whose
incidence count (one per endpoint on the node) is at least that of every value;
hence a value with strictly the highest count is the one held, and so is a value
shared by all incident edges. A node without incident edge holds 0. -/
theorem updateNodeAverageValues_categorical_mode
    (iterationOrder : ValueCountMap → List (ℚ × Nat))
    (hperm : ∀ m, (iterationOrder m).Perm m) (net : CurveNetwork) (values : List ℚ)
    (wf : WellFormed net values) (prior : List FloatVal) :
    ∃ r, updateNodeAverageValues iterationOrder net DataType.CATEGORICAL values prior = some r ∧
      r.length = net.nNodes ∧
      ∀ n, n < net.nNodes →
        (incidentValues net values n = [] → r[n]? = some (FloatVal.finite 0)) ∧
        (incidentValues net values n ≠ [] →
          ∃ m, r[n]? = some (FloatVal.finite m) ∧ m ∈ incidentValues net values n ∧
            ∀ x, (incidentValues net values n).count x ≤ (incidentValues net values n).count m) ∧
        (∀ x, (∀ y, y ≠ x →
            (incidentValues net values n).count y < (incidentValues net values n).count x) →
          r[n]? = some (FloatVal.finite x)) ∧
        (∀ x, incidentValues net values n ≠ [] →
          (∀ y ∈ incidentValues net values n, y = x) → r[n]? = some (FloatVal.finite x)) := by
  obtain ⟨vc, e, _, hv, hc⟩ := updateNodeAverageValues_categorical iterationOrder wf prior
  refine ⟨_, e, by simp, ?_⟩
  intro n hn
  have hrn : ((List.range net.nNodes).map
      (fun n => FloatVal.finite (modeScan (iterationOrder (vc.getD n [])))))[n]? =
      some (FloatVal.finite (modeScan (iterationOrder (vc.getD n [])))) := by
    simp [List.getElem?_map, List.getElem?_range hn]
  obtain ⟨hnil, hne⟩ := modeScan_of_counts hperm (hv n) (hc n)
  rw [hrn]
  refine ⟨fun h => by rw [hnil h], fun h => ⟨_, rfl, (hne h).1, (hne h).2⟩, ?_, ?_⟩
  · intro x hx
    by_cases h : incidentValues net values n = []
    · exfalso
      have := hx (x + 1) (by simp)
      rw [h] at this
      simp at this
    · by_contra hneq
      have h1 := hx (modeScan (iterationOrder (vc.getD n []))) (fun e => hneq (by rw [e]))
      have h2 := (hne h).2 x
      omega
  · intro x h hall
    rw [hall _ (hne h).1]

/-- C2 on a network with a self-loop: node 1 sees the value 5 three times and the
value 7 once, node 2 sees 7 once, node 3 has no incident edge. The count maps are
visited in reverse insertion order. -/
theorem updateNodeAverageValues_categorical_mode_witness :
    (∀ m : ValueCountMap, (List.reverse m).Perm m) ∧
    WellFormed selfLoopNetwork [5, 5, 7] ∧
    (∃ r, updateNodeAverageValues List.reverse selfLoopNetwork DataType.CATEGORICAL [5, 5, 7]
        [FloatVal.finite 9, FloatVal.nonFinite] = some r ∧
      r.length = selfLoopNetwork.nNodes ∧
      ∀ n, n < selfLoopNetwork.nNodes →
        (incidentValues selfLoopNetwork [5, 5, 7] n = [] → r[n]? = some (FloatVal.finite 0)) ∧
        (incidentValues selfLoopNetwork [5, 5, 7] n ≠ [] →
          ∃ m, r[n]? = some (FloatVal.finite m) ∧
            m ∈ incidentValues selfLoopNetwork [5, 5, 7] n ∧
            ∀ x, (incidentValues selfLoopNetwork [5, 5, 7] n).count x ≤
              (incidentValues selfLoopNetwork [5, 5, 7] n).count m) ∧
        (∀ x, (∀ y, y ≠ x →
            (incidentValues selfLoopNetwork [5, 5, 7] n).count y <
              (incidentValues selfLoopNetwork [5, 5, 7] n).count x) →
          r[n]? = some (FloatVal.finite x)) ∧
        (∀ x, incidentValues selfLoopNetwork [5, 5, 7] n ≠ [] →
          (∀ y ∈ incidentValues selfLoopNetwork [5, 5, 7] n, y = x) →
            r[n]? = some (FloatVal.finite x))) ∧
    updateNodeAverageValues List.reverse selfLoopNetwork DataType.CATEGORICAL [5, 5, 7]
      [FloatVal.finite 9, FloatVal.nonFinite] =
      some [FloatVal.finite 5, FloatVal.finite 5, FloatVal.finite 7, FloatVal.finite 0] := by
  have wf : WellFormed selfLoopNetwork [5, 5, 7] :=
    ⟨rfl, rfl, rfl, by decide, by decide⟩
  refine ⟨List.reverse_perm, wf,
    updateNodeAverageValues_categorical_mode List.reverse List.reverse_perm _ _ wf
      [FloatVal.finite 9, FloatVal.nonFinite], ?_⟩
  simp [updateNodeAverageValues, selfLoopNetwork, resize, List.range, List.range.loop,
    countEdgeStep, incrementValueCount, ValueCountMap.find, ValueCountMap.assign, modeNodeStep,
    modeScan, modeScanStep]

/-- C3, evaluated: the Continuous branch does not start from zero. On the
scenario network the first call, on the empty buffer, gives 2, 3, 4; a second
call on the buffer left by the first gives 4, 9/2, 8, whereas from an all-zero
buffer it gives 2, 3, 4 again. The same is reached through `draw()`, `refresh()`,
`draw()` on the fresh enabled edge quantity: its node values are 2, 3, 4 after the
first draw and 4, 9/2, 8 after the rebuild. -/
theorem updateNodeAverageValues_continuous_accumulates :
    updateNodeAverageValues id scenarioNetwork DataType.CONTINUOUS [2, 4] [] =
      some [FloatVal.finite 2, FloatVal.finite 3, FloatVal.finite 4] ∧
    updateNodeAverageValues id scenarioNetwork DataType.CONTINUOUS [2, 4]
        [FloatVal.finite 2, FloatVal.finite 3, FloatVal.finite 4] =
      some [FloatVal.finite 4, FloatVal.finite (9 / 2), FloatVal.finite 8] ∧
    updateNodeAverageValues id scenarioNetwork DataType.CONTINUOUS [2, 4]
        [FloatVal.finite 0, FloatVal.finite 0, FloatVal.finite 0] =
      some [FloatVal.finite 2, FloatVal.finite 3, FloatVal.finite 4] ∧
    (scenarioEdgeQuantity.draw plainCollaborators).map (fun r => r.1.nodeAverageValues) =
      some [FloatVal.finite 2, FloatVal.finite 3, FloatVal.finite 4] ∧
    ((scenarioEdgeQuantity.draw plainCollaborators).bind
        (fun r => r.1.refresh.draw plainCollaborators)).map (fun r => r.1.nodeAverageValues) =
      some [FloatVal.finite 4, FloatVal.finite (9 / 2), FloatVal.finite 8] := by
  have h1 : updateNodeAverageValues (fun map => map) scenarioNetwork DataType.CONTINUOUS [2, 4]
      [] = some [FloatVal.finite 2, FloatVal.finite 3, FloatVal.finite 4] := by
    simp [updateNodeAverageValues, scenarioNetwork, resize, List.range, List.range.loop,
      meanEdgeStep, meanNodeStep, addAt, FloatVal.add, FloatVal.divNat]
    norm_num
  have h2 : updateNodeAverageValues (fun map => map) scenarioNetwork DataType.CONTINUOUS [2, 4]
      [FloatVal.finite 2, FloatVal.finite 3, FloatVal.finite 4] =
      some [FloatVal.finite 4, FloatVal.finite (9 / 2), FloatVal.finite 8] := by
    simp [updateNodeAverageValues, scenarioNetwork, resize, List.range, List.range.loop,
      meanEdgeStep, meanNodeStep, addAt, FloatVal.add, FloatVal.divNat]
    norm_num
  have h3 : updateNodeAverageValues (fun map => map) scenarioNetwork DataType.CONTINUOUS [2, 4]
      [FloatVal.finite 0, FloatVal.finite 0, FloatVal.finite 0] =
      some [FloatVal.finite 2, FloatVal.finite 3, FloatVal.finite 4] := by
    simp [updateNodeAverageValues, scenarioNetwork, resize, List.range, List.range.loop,
      meanEdgeStep, meanNodeStep, addAt, FloatVal.add, FloatVal.divNat]
    norm_num
  refine ⟨h1, h2, h3, ?_, ?_⟩
  · simp [CurveNetworkScalarQuantity.draw, CurveNetworkScalarQuantity.createProgram,
      CurveNetworkEdgeScalarQuantity.createProgram, scenarioEdgeQuantity,
      CurveNetworkEdgeScalarQuantity, plainCollaborators, h1]
  · simp [CurveNetworkScalarQuantity.draw, CurveNetworkScalarQuantity.createProgram,
      CurveNetworkEdgeScalarQuantity.createProgram, scenarioEdgeQuantity,
      CurveNetworkEdgeScalarQuantity, plainCollaborators, h1, h2,
      CurveNetworkScalarQuantity.refresh, Quantity.refresh]

/-! ### Claims on the quantity lifecycle -/

theorem updateNodeAverageValues_isSome (iterationOrder : ValueCountMap → List (ℚ × Nat))
    {net : CurveNetwork} {values : List ℚ} (wf : WellFormed net values)
    (hdeg : net.nNodes ≤ net.nodeDegrees.length) (dataType : DataType)
    (prior : List FloatVal) :
    ∃ r, updateNodeAverageValues iterationOrder net dataType values prior = some r ∧
      r.length = net.nNodes := by
  cases dataType with
  | CONTINUOUS =>
    obtain ⟨r, e, l, _⟩ := updateNodeAverageValues_continuous iterationOrder wf hdeg prior
    exact ⟨r, e, l⟩
  | CATEGORICAL =>
    obtain ⟨vc, e, _⟩ := updateNodeAverageValues_categorical iterationOrder wf prior
    exact ⟨_, e, by simp⟩

/-- What a successful `createProgram()` leaves: both programs built from the
requested base and rule list, no nested `createProgram()` call, data type, enabled
flag, values and parent untouched. -/
theorem createProgram_spec (env : Collaborators) (q : CurveNetworkScalarQuantity)
    (hin : q.kind = QuantityKind.edge → q.InBounds) :
    ∃ q1 calls, q.createProgram env = some (q1, calls) ∧
      q1.nodeProgram = some ⟨"RAYCAST_SPHERE", nodeProgramRules env q⟩ ∧
      (∃ initial, q1.edgeProgram = some ⟨"RAYCAST_CYLINDER", edgeProgramRules env q initial⟩ ∧
        Call.requestShader ProgramSlot.edgeProgram "RAYCAST_CYLINDER"
          (edgeProgramRules env q initial) ∈ calls) ∧
      Call.requestShader ProgramSlot.nodeProgram "RAYCAST_SPHERE" (nodeProgramRules env q) ∈
        calls ∧
      calls.count Call.createProgram = 0 ∧
      q1.enabled = q.enabled ∧ q1.dataType = q.dataType ∧ q1.values = q.values ∧
      q1.parent = q.parent ∧ q1.kind = q.kind := by
  cases hcp : q.createProgram env with
  | none =>
    exfalso
    cases hk : q.kind with
    | node => simp [CurveNetworkScalarQuantity.createProgram, hk] at hcp
    | edge =>
      obtain ⟨wf, hdeg⟩ := hin hk
      obtain ⟨r, e, _⟩ := updateNodeAverageValues_isSome env.iterationOrder wf hdeg q.dataType
        q.nodeAverageValues
      simp [CurveNetworkScalarQuantity.createProgram, hk,
        CurveNetworkEdgeScalarQuantity.createProgram, e] at hcp
  | some built =>
    obtain ⟨q1, calls⟩ := built
    refine ⟨q1, calls, rfl, ?_⟩
    cases hk : q.kind with
    | node =>
      simp only [CurveNetworkScalarQuantity.createProgram, hk, Option.some.injEq,
        CurveNetworkNodeScalarQuantity.createProgram, Prod.mk.injEq] at hcp
      obtain ⟨rfl, rfl⟩ := hcp
      refine ⟨rfl, ⟨_, rfl, ?_⟩, ?_, ?_, rfl, rfl, rfl, rfl, rfl⟩
      · simp
      · simp
      · simp [List.count_cons]
    | edge =>
      cases e : updateNodeAverageValues env.iterationOrder q.parent q.dataType q.values
        q.nodeAverageValues with
      | none =>
        simp [CurveNetworkScalarQuantity.createProgram, hk,
          CurveNetworkEdgeScalarQuantity.createProgram, e] at hcp
      | some r =>
        simp only [CurveNetworkScalarQuantity.createProgram, hk,
          CurveNetworkEdgeScalarQuantity.createProgram, e, Option.bind_eq_bind,
          Option.some_bind, Option.some.injEq, Prod.mk.injEq] at hcp
        obtain ⟨rfl, rfl⟩ := hcp
        refine ⟨rfl, ⟨_, rfl, ?_⟩, ?_, ?_, rfl, rfl, rfl, rfl, rfl⟩
        · simp
        · simp
        · simp [List.count_cons]

theorem drawCalls_count (q : CurveNetworkScalarQuantity) :
    (drawCalls q).count Call.createProgram = 0 := by
  simp [drawCalls, List.count_cons]

/-- C4: `draw()` on a disabled quantity returns at once: the state (programs,
values, derived node buffer included) is unchanged and no call is made, so no
`createProgram()`, no uniform binding and no draw call. -/
theorem draw_disabled_noop (env : Collaborators) (q : CurveNetworkScalarQuantity)
    (h : q.enabled = false) :
    q.draw env = some (q, []) := by
  simp [CurveNetworkScalarQuantity.draw, h]

/-- C4 on a disabled edge quantity with both programs absent. -/
theorem draw_disabled_noop_witness :
    (CurveNetworkEdgeScalarQuantity "q" [2, 4] scenarioNetwork DataType.CONTINUOUS false
      "viridis").enabled = false ∧
    (CurveNetworkEdgeScalarQuantity "q" [2, 4] scenarioNetwork DataType.CONTINUOUS false
      "viridis").draw plainCollaborators =
      some (CurveNetworkEdgeScalarQuantity "q" [2, 4] scenarioNetwork DataType.CONTINUOUS false
        "viridis", []) :=
  ⟨rfl, draw_disabled_noop plainCollaborators _ rfl⟩

theorem draw_absent (env : Collaborators) (q : CurveNetworkScalarQuantity)
    (hen : q.enabled = true) (habs : q.nodeProgram = none ∨ q.edgeProgram = none)
    (hin : q.kind = QuantityKind.edge → q.InBounds) :
    ∃ q1 calls, q.createProgram env = some (q1, calls) ∧
      q.draw env = some (q1, Call.createProgram :: (calls ++ drawCalls q1)) := by
  obtain ⟨q1, calls, e, hn, ⟨i, he, _⟩, _⟩ := createProgram_spec env q hin
  refine ⟨q1, calls, e, ?_⟩
  have hcond : (q.edgeProgram.isNone || q.nodeProgram.isNone) = true := by
    rcases habs with h | h <;> simp [h]
  simp [CurveNetworkScalarQuantity.draw, hen, hcond, e, hn, he]

theorem draw_present (env : Collaborators) (q : CurveNetworkScalarQuantity)
    (hen : q.enabled = true) (hn : q.nodeProgram ≠ none) (he : q.edgeProgram ≠ none) :
    q.draw env = some (q, drawCalls q) := by
  obtain ⟨np, hnp⟩ := Option.ne_none_iff_exists'.1 hn
  obtain ⟨ep, hep⟩ := Option.ne_none_iff_exists'.1 he
  simp [CurveNetworkScalarQuantity.draw, hen, hnp, hep]

/-- C5: `refresh()` leaves both programs absent and keeps the scalar values, the
derived node buffer, the data type and the enabled flag; the next `draw()` of an
enabled quantity (array accesses of an edge quantity in range) starts by calling
`createProgram()`, calls it once, requests both shaders and ends with both
programs present. -/
theorem refresh_discards_programs_keeps_data (env : Collaborators)
    (q : CurveNetworkScalarQuantity) :
    q.refresh.nodeProgram = none ∧ q.refresh.edgeProgram = none ∧
    q.refresh.values = q.values ∧ q.refresh.nodeAverageValues = q.nodeAverageValues ∧
    q.refresh.dataType = q.dataType ∧ q.refresh.enabled = q.enabled ∧
    (q.enabled = true → (q.kind = QuantityKind.edge → q.InBounds) →
      ∃ q1 calls, q.refresh.draw env = some (q1, calls) ∧
        calls.head? = some Call.createProgram ∧
        calls.count Call.createProgram = 1 ∧
        Call.requestShader ProgramSlot.nodeProgram "RAYCAST_SPHERE"
          (nodeProgramRules env q) ∈ calls ∧
        (∃ initial, Call.requestShader ProgramSlot.edgeProgram "RAYCAST_CYLINDER"
          (edgeProgramRules env q initial) ∈ calls) ∧
        q1.nodeProgram.isSome = true ∧ q1.edgeProgram.isSome = true) := by
  refine ⟨rfl, rfl, rfl, rfl, rfl, rfl, ?_⟩
  intro hen hin
  have hin2 : q.refresh.kind = QuantityKind.edge → q.refresh.InBounds := hin
  obtain ⟨q1, calls, e, hn, ⟨i, he, hmemE⟩, hmemN, hcount, _⟩ :=
    createProgram_spec env q.refresh hin2
  obtain ⟨q2, calls2, e2, hd⟩ := draw_absent env q.refresh hen (Or.inl rfl) hin2
  rw [e] at e2
  obtain ⟨rfl, rfl⟩ : q1 = q2 ∧ calls = calls2 := by
    simpa using e2
  refine ⟨q1, _, hd, rfl, ?_, ?_, ⟨i, ?_⟩, by rw [hn]; rfl, by rw [he]; rfl⟩
  · rw [List.count_cons, List.count_append, hcount, drawCalls_count]; simp
  · exact List.mem_cons_of_mem _ (List.mem_append_left _ hmemN)
  · exact List.mem_cons_of_mem _ (List.mem_append_left _ hmemE)

/-- C6: `draw()` of an enabled quantity ends with both programs present. If a
program was absent, `createProgram()` is called exactly once (array accesses of an
edge quantity in range); if both were present it is not called, no shader is
requested and the state, program handles included, is unchanged. -/
theorem draw_enabled_builds_at_most_once (env : Collaborators)
    (q : CurveNetworkScalarQuantity) (hen : q.enabled = true)
    (hin : (q.nodeProgram = none ∨ q.edgeProgram = none) →
      q.kind = QuantityKind.edge → q.InBounds) :
    ∃ q1 calls, q.draw env = some (q1, calls) ∧
      q1.nodeProgram.isSome = true ∧ q1.edgeProgram.isSome = true ∧
      ((q.nodeProgram = none ∨ q.edgeProgram = none) →
        calls.count Call.createProgram = 1) ∧
      ((q.nodeProgram ≠ none ∧ q.edgeProgram ≠ none) →
        calls.count Call.createProgram = 0 ∧ q1 = q ∧ calls = drawCalls q) := by
  by_cases habs : q.nodeProgram = none ∨ q.edgeProgram = none
  · obtain ⟨q1, calls, e, hn, ⟨i, he, _⟩, _, hcount, _⟩ := createProgram_spec env q (hin habs)
    obtain ⟨q2, calls2, e2, hd⟩ := draw_absent env q hen habs (hin habs)
    rw [e] at e2
    obtain ⟨rfl, rfl⟩ : q1 = q2 ∧ calls = calls2 := by
      simpa using e2
    refine ⟨q1, _, hd, by rw [hn]; rfl, by rw [he]; rfl, ?_, ?_⟩
    · intro _
      rw [List.count_cons, List.count_append, hcount, drawCalls_count]; simp
    · intro hp
      rcases habs with h | h
      · exact absurd h hp.1
      · exact absurd h hp.2
  · have hn : q.nodeProgram ≠ none := fun h => habs (Or.inl h)
    have he : q.edgeProgram ≠ none := fun h => habs (Or.inr h)
    refine ⟨q, drawCalls q, draw_present env q hen hn he, ?_, ?_, ?_, ?_⟩
    · exact Option.isSome_iff_ne_none.2 hn
    · exact Option.isSome_iff_ne_none.2 he
    · intro h; exact absurd h habs
    · intro _; exact ⟨drawCalls_count q, rfl, rfl⟩

theorem scenarioEdgeQuantity_inBounds : scenarioEdgeQuantity.InBounds :=
  ⟨wellFormed_scenario _ rfl, by decide⟩

/-- C5 on the fresh enabled edge quantity of the scenario. -/
theorem refresh_discards_programs_keeps_data_witness :
    scenarioEdgeQuantity.enabled = true ∧
    (scenarioEdgeQuantity.kind = QuantityKind.edge → scenarioEdgeQuantity.InBounds) ∧
    ∃ q1 calls, scenarioEdgeQuantity.refresh.draw plainCollaborators = some (q1, calls) ∧
      calls.head? = some Call.createProgram ∧
      calls.count Call.createProgram = 1 ∧
      Call.requestShader ProgramSlot.nodeProgram "RAYCAST_SPHERE"
        (nodeProgramRules plainCollaborators scenarioEdgeQuantity) ∈ calls ∧
      (∃ initial, Call.requestShader ProgramSlot.edgeProgram "RAYCAST_CYLINDER"
        (edgeProgramRules plainCollaborators scenarioEdgeQuantity initial) ∈ calls) ∧
      q1.nodeProgram.isSome = true ∧ q1.edgeProgram.isSome = true :=
  ⟨rfl, fun _ => scenarioEdgeQuantity_inBounds,
    (refresh_discards_programs_keeps_data plainCollaborators scenarioEdgeQuantity).2.2.2.2.2.2
      rfl (fun _ => scenarioEdgeQuantity_inBounds)⟩

/-- C6 on the fresh enabled edge quantity of the scenario, whose programs are
absent. -/
theorem draw_enabled_builds_at_most_once_witness :
    scenarioEdgeQuantity.enabled = true ∧
    ((scenarioEdgeQuantity.nodeProgram = none ∨ scenarioEdgeQuantity.edgeProgram = none) →
      scenarioEdgeQuantity.kind = QuantityKind.edge → scenarioEdgeQuantity.InBounds) ∧
    ∃ q1 calls, scenarioEdgeQuantity.draw plainCollaborators = some (q1, calls) ∧
      q1.nodeProgram.isSome = true ∧ q1.edgeProgram.isSome = true ∧
      ((scenarioEdgeQuantity.nodeProgram = none ∨ scenarioEdgeQuantity.edgeProgram = none) →
        calls.count Call.createProgram = 1) ∧
      ((scenarioEdgeQuantity.nodeProgram ≠ none ∧ scenarioEdgeQuantity.edgeProgram ≠ none) →
        calls.count Call.createProgram = 0 ∧ q1 = scenarioEdgeQuantity ∧
          calls = drawCalls scenarioEdgeQuantity) :=
  ⟨rfl, fun _ _ => scenarioEdgeQuantity_inBounds,
    draw_enabled_builds_at_most_once plainCollaborators scenarioEdgeQuantity rfl
      (fun _ _ => scenarioEdgeQuantity_inBounds)⟩

/-! ### Claims on `PersistentValue` -/

theorem new_of_cached {T : Type} (c : PersistentCache T) (n : String) (d cached : T)
    (h : c.cache n = some cached) :
    PersistentValue.new c n d = (c, { name := n, value := cached, holdsDefaultValue_ := false }) := by
  simp [PersistentValue.new, h]

theorem new_of_absent {T : Type} (c : PersistentCache T) (n : String) (d : T)
    (h : c.cache n = none) :
    PersistentValue.new c n d =
      (c.insert n d, { name := n, value := d, holdsDefaultValue_ := true }) := by
  simp [PersistentValue.new, h]

theorem insert_cache_same {T : Type} (c : PersistentCache T) (n : String) (v : T) :
    (c.insert n v).cache n = some v := by
  simp [PersistentCache.insert]

theorem insert_insert {T : Type} (c : PersistentCache T) (n : String) (v0 v : T) :
    (c.insert n v0).insert n v = c.insert n v := by
  simp only [PersistentCache.insert, PersistentCache.mk.injEq]
  funext m
  by_cases h : m = n <;> simp [h]

/-- C7: a `PersistentValue` remembers its value by name. After `set(v)`, or an
assignment of a raw value or of another variable, on a variable named `n`, a new
variable constructed under the name `n` with construction value `d` has the set
value and `holdsDefaultValue()` false. Constructing under a name without cache
entry gives the construction value `d`, `holdsDefaultValue()` true, and a cache
that maps the name to `d` and is otherwise unchanged. -/
theorem persistentValue_remembers_by_name {T : Type} (c : PersistentCache T)
    (pv : PersistentValue T) (v d : T) :
    ((PersistentValue.new (pv.set c v).1 pv.name d).2.value = v ∧
      (PersistentValue.new (pv.set c v).1 pv.name d).2.holdsDefaultValue = false) ∧
    (∀ (U : Type) (convert : U → T) (u : U),
      (PersistentValue.new (pv.assign convert c u).1 pv.name d).2.value = convert u ∧
      (PersistentValue.new (pv.assign convert c u).1 pv.name d).2.holdsDefaultValue = false) ∧
    (∀ (U : Type) (convert : U → T) (other : PersistentValue U),
      (PersistentValue.new (pv.assignFrom convert c other).1 pv.name d).2.value =
        convert other.value ∧
      (PersistentValue.new (pv.assignFrom convert c other).1 pv.name d).2.holdsDefaultValue =
        false) ∧
    (∀ n : String, c.cache n = none →
      (PersistentValue.new c n d).2.value = d ∧
      (PersistentValue.new c n d).2.holdsDefaultValue = true ∧
      (PersistentValue.new c n d).1.cache n = some d ∧
      ∀ m, m ≠ n → (PersistentValue.new c n d).1.cache m = c.cache m) := by
  have hset : ∀ w : T, (PersistentValue.new (pv.set c w).1 pv.name d).2.value = w ∧
      (PersistentValue.new (pv.set c w).1 pv.name d).2.holdsDefaultValue = false := by
    intro w
    have h : (pv.set c w).1.cache pv.name = some w := insert_cache_same c pv.name w
    rw [new_of_cached _ _ _ _ h]
    exact ⟨rfl, rfl⟩
  refine ⟨hset v, fun U convert u => hset (convert u),
    fun U convert other => hset (convert other.value), ?_⟩
  intro n hn
  rw [new_of_absent _ _ _ hn]
  refine ⟨rfl, rfl, insert_cache_same c n d, ?_⟩
  intro m hm
  simp [PersistentCache.insert, hm]

/-- C7 on the empty cache: a variable named "a" set to 5 is found again by a new
variable named "a", and the name "b" has no entry. -/
theorem persistentValue_remembers_by_name_witness :
    (PersistentCache.empty Nat).cache "b" = none ∧
    (PersistentValue.new
      ((PersistentValue.new (PersistentCache.empty Nat) "a" 1).2.set
        (PersistentValue.new (PersistentCache.empty Nat) "a" 1).1 5).1 "a" 7).2.value = 5 ∧
    (PersistentValue.new (PersistentCache.empty Nat) "b" 7).2.value = 7 ∧
    (PersistentValue.new (PersistentCache.empty Nat) "b" 7).2.holdsDefaultValue = true ∧
    (PersistentValue.new (PersistentCache.empty Nat) "b" 7).1.cache "b" = some 7 :=
  ⟨rfl,
    (persistentValue_remembers_by_name (PersistentValue.new (PersistentCache.empty Nat) "a" 1).1
      (PersistentValue.new (PersistentCache.empty Nat) "a" 1).2 5 7).1.1,
    ((persistentValue_remembers_by_name (PersistentCache.empty Nat)
      (PersistentValue.new (PersistentCache.empty Nat) "a" 1).2 5 7).2.2.2 "b" rfl).1,
    ((persistentValue_remembers_by_name (PersistentCache.empty Nat)
      (PersistentValue.new (PersistentCache.empty Nat) "a" 1).2 5 7).2.2.2 "b" rfl).2.1,
    ((persistentValue_remembers_by_name (PersistentCache.empty Nat)
      (PersistentValue.new (PersistentCache.empty Nat) "a" 1).2 5 7).2.2.2 "b" rfl).2.2.1⟩

/-- C8: after construction, `set`, an assignment from a raw value or from another
variable, or `manuallyChanged()` (also after a write through `get()`), the
variable still has its own name and the cache entry under that name exists and
equals the variable's current value. -/
theorem persistentValue_cached_under_own_name {T : Type} (c : PersistentCache T) :
    (∀ (n : String) (d : T),
      (PersistentValue.new c n d).2.name = n ∧
      (PersistentValue.new c n d).1.cache n = some (PersistentValue.new c n d).2.get) ∧
    (∀ (pv : PersistentValue T) (v : T),
      (pv.set c v).2.name = pv.name ∧ (pv.set c v).2.get = v ∧
      (pv.set c v).1.cache pv.name = some (pv.set c v).2.get) ∧
    (∀ (U : Type) (convert : U → T) (pv : PersistentValue T) (u : U),
      (pv.assign convert c u).2.name = pv.name ∧ (pv.assign convert c u).2.get = convert u ∧
      (pv.assign convert c u).1.cache pv.name = some (pv.assign convert c u).2.get) ∧
    (∀ (U : Type) (convert : U → T) (pv : PersistentValue T) (other : PersistentValue U),
      (pv.assignFrom convert c other).2.name = pv.name ∧
      (pv.assignFrom convert c other).2.get = convert other.value ∧
      (pv.assignFrom convert c other).1.cache pv.name =
        some (pv.assignFrom convert c other).2.get) ∧
    (∀ (pv : PersistentValue T),
      (pv.manuallyChanged c).2.name = pv.name ∧ (pv.manuallyChanged c).2.get = pv.get ∧
      (pv.manuallyChanged c).1.cache pv.name = some (pv.manuallyChanged c).2.get) ∧
    (∀ (pv : PersistentValue T) (v : T),
      ((pv.writeThroughGet v).manuallyChanged c).2.name = pv.name ∧
      ((pv.writeThroughGet v).manuallyChanged c).2.get = v ∧
      ((pv.writeThroughGet v).manuallyChanged c).1.cache pv.name = some v) := by
  have hset : ∀ (pv : PersistentValue T) (v : T),
      (pv.set c v).2.name = pv.name ∧ (pv.set c v).2.get = v ∧
      (pv.set c v).1.cache pv.name = some (pv.set c v).2.get :=
    fun pv v => ⟨rfl, rfl, insert_cache_same c pv.name v⟩
  refine ⟨?_, hset, fun U convert pv u => hset pv (convert u),
    fun U convert pv other => hset pv (convert other.value), fun pv => hset pv pv.value,
    fun pv v => hset (pv.writeThroughGet v) v⟩
  intro n d
  cases h : c.cache n with
  | none =>
    rw [new_of_absent _ _ _ h]
    exact ⟨rfl, insert_cache_same c n d⟩
  | some cached =>
    rw [new_of_cached _ _ _ _ h]
    exact ⟨rfl, h⟩

/-- C9: `clearCache()` removes the cache entry under the variable's name, leaves
the entries of all other names and the variable's value as they are, and a
variable constructed afterwards under the same name takes its construction
value. -/
theorem clearCache_keeps_value {T : Type} (c : PersistentCache T) (pv : PersistentValue T) :
    (pv.clearCache c).1.cache pv.name = none ∧
    (∀ m, m ≠ pv.name → (pv.clearCache c).1.cache m = c.cache m) ∧
    (pv.clearCache c).2.get = pv.get ∧
    (pv.clearCache c).2.name = pv.name ∧
    (∀ d : T, (PersistentValue.new (pv.clearCache c).1 pv.name d).2.get = d ∧
      (PersistentValue.new (pv.clearCache c).1 pv.name d).2.holdsDefaultValue = true) := by
  have hnone : (pv.clearCache c).1.cache pv.name = none := by
    simp [PersistentValue.clearCache, PersistentCache.erase]
  refine ⟨hnone, ?_, rfl, rfl, ?_⟩
  · intro m hm
    simp [PersistentValue.clearCache, PersistentCache.erase, hm]
  · intro d
    rw [new_of_absent _ _ _ hnone]
    exact ⟨rfl, rfl⟩

/-- C9 on a cache holding "a" and "b": clearing "a" keeps the entry of "b". -/
theorem clearCache_keeps_value_witness :
    "b" ≠ (PersistentValue.mk "a" 5 false).name ∧
    ((PersistentValue.mk "a" 5 false).clearCache
      (((PersistentCache.empty Nat).insert "a" 5).insert "b" 6)).1.cache "b" =
      (((PersistentCache.empty Nat).insert "a" 5).insert "b" 6).cache "b" :=
  ⟨by decide,
    (clearCache_keeps_value (((PersistentCache.empty Nat).insert "a" 5).insert "b" 6)
      (PersistentValue.mk "a" 5 false)).2.1 "b" (by decide)⟩

/-- C10: constructing `PersistentValue(n, v0)` and then calling `setPassive(v)`
gives the same cache and the same variable (value and `holdsDefaultValue` flag
included) as constructing `PersistentValue(n, v)`; and `setPassive` changes
nothing when `holdsDefaultValue()` is false. -/
theorem setPassive_eq_construct {T : Type} (c : PersistentCache T) (n : String) (v0 v : T) :
    (PersistentValue.new c n v0).2.setPassive (PersistentValue.new c n v0).1 v =
      PersistentValue.new c n v ∧
    (∀ pv : PersistentValue T, pv.holdsDefaultValue = false → pv.setPassive c v = (c, pv)) := by
  constructor
  · cases h : c.cache n with
    | none =>
      rw [new_of_absent _ _ _ h, new_of_absent _ _ _ h]
      simp [PersistentValue.setPassive, insert_insert]
    | some cached =>
      rw [new_of_cached _ _ _ _ h, new_of_cached _ _ _ _ h]
      simp [PersistentValue.setPassive]
  · intro pv hpv
    have : pv.holdsDefaultValue_ = false := hpv
    simp [PersistentValue.setPassive, this]

/-- C10 on a variable that was explicitly set: `setPassive` leaves it alone. -/
theorem setPassive_eq_construct_witness :
    (PersistentValue.mk "a" 5 false).holdsDefaultValue = false ∧
    (PersistentValue.mk "a" 5 false).setPassive (PersistentCache.empty Nat) 9 =
      (PersistentCache.empty Nat, PersistentValue.mk "a" 5 false) :=
  ⟨rfl, (setPassive_eq_construct (PersistentCache.empty Nat) "a" 0 9).2 _ rfl⟩

/-! ### The flag `holdsDefaultValue_` along a sequence of operations -/

theorem apply_flag {T : Type} (op : PersistentOp T)
    (state : PersistentCache T × PersistentValue T) :
    (op.apply state).2.holdsDefaultValue_ =
      if op.isExplicitSet then false
      else if op.isClearCache then true else state.2.holdsDefaultValue_ := by
  cases op with
  | setPassive v =>
    simp only [PersistentOp.apply, PersistentValue.setPassive, PersistentOp.isExplicitSet,
      PersistentOp.isClearCache]
    cases h : state.2.holdsDefaultValue_ <;> simp [h]
  | _ => rfl

theorem runOps_flag {T : Type} (ops : List (PersistentOp T))
    (state : PersistentCache T × PersistentValue T) :
    (runOps ops state).2.holdsDefaultValue_ = flagAfter state.2.holdsDefaultValue_ ops := by
  induction ops generalizing state with
  | nil => rfl
  | cons op rest ih =>
    simp only [runOps, flagAfter, List.foldl_cons]
    have := ih (op.apply state)
    simp only [runOps, flagAfter] at this
    rw [this, apply_flag]

theorem flagAfter_of_no_clear {T : Type} (initial : Bool) (ops : List (PersistentOp T))
    (h : ops.any PersistentOp.isClearCache = false) :
    flagAfter initial ops = (initial && !ops.any PersistentOp.isExplicitSet) := by
  induction ops generalizing initial with
  | nil => simp [flagAfter]
  | cons op rest ih =>
    simp only [List.any_cons, Bool.or_eq_false_iff] at h
    have hstep : flagAfter initial (op :: rest) =
        flagAfter (if op.isExplicitSet then false else initial) rest := by
      simp [flagAfter, List.foldl_cons, h.1]
    rw [hstep, ih _ h.2, List.any_cons]
    cases hop : op.isExplicitSet <;> simp

theorem new_flag {T : Type} (c : PersistentCache T) (n : String) (d : T) :
    (PersistentValue.new c n d).2.holdsDefaultValue_ = (c.cache n).isNone := by
  cases h : c.cache n with
  | none => rw [new_of_absent _ _ _ h]; rfl
  | some cached => rw [new_of_cached _ _ _ _ h]; rfl

/-- C11, as stated, fails: after `set(5)` and then `clearCache()` on a variable
constructed without cache entry, `holdsDefaultValue()` is true although the value
has been explicitly set earlier in the sequence. -/
theorem holdsDefaultValue_not_as_documented :
    (runOps [PersistentOp.set 5, PersistentOp.clearCache]
      (PersistentValue.new (PersistentCache.empty Nat) "a" 1)).2.holdsDefaultValue = true ∧
    documentedHoldsDefault ((PersistentCache.empty Nat).cache "a").isSome
      [PersistentOp.set 5, PersistentOp.clearCache] = false ∧
    ¬ (∀ (c : PersistentCache Nat) (n : String) (d : Nat) (ops : List (PersistentOp Nat)),
      (runOps ops (PersistentValue.new c n d)).2.holdsDefaultValue =
        documentedHoldsDefault (c.cache n).isSome ops) := by
  refine ⟨rfl, rfl, ?_⟩
  intro h
  have h1 := h (PersistentCache.empty Nat) "a" 1 [PersistentOp.set 5, PersistentOp.clearCache]
  have h2 : (runOps [PersistentOp.set 5, PersistentOp.clearCache]
      (PersistentValue.new (PersistentCache.empty Nat) "a" 1)).2.holdsDefaultValue = true := rfl
  have h3 : documentedHoldsDefault ((PersistentCache.empty Nat).cache "a").isSome
      [PersistentOp.set 5, PersistentOp.clearCache] = false := rfl
  rw [h2, h3] at h1
  exact Bool.noConfusion h1

/-- C11, amended: after construction and any sequence of operations,
`holdsDefaultValue()` is the flag in which an explicit set (`set`, assignment,
`manuallyChanged`) lowers it, `clearCache()` raises it again and `setPassive` or a
write through `get()` keeps it, starting from true exactly when the constructor
found no cache entry. For a sequence without `clearCache()` this is the flag of
the member comment: true if the value was set on construction and never
explicitly set, false if it was pulled from the cache or explicitly set. -/
theorem holdsDefaultValue_after_ops {T : Type} (c : PersistentCache T) (n : String) (d : T)
    (ops : List (PersistentOp T)) :
    (runOps ops (PersistentValue.new c n d)).2.holdsDefaultValue =
      flagAfter (c.cache n).isNone ops ∧
    (ops.any PersistentOp.isClearCache = false →
      (runOps ops (PersistentValue.new c n d)).2.holdsDefaultValue =
        documentedHoldsDefault (c.cache n).isSome ops) := by
  have h1 : (runOps ops (PersistentValue.new c n d)).2.holdsDefaultValue =
      flagAfter (c.cache n).isNone ops := by
    show (runOps ops (PersistentValue.new c n d)).2.holdsDefaultValue_ = _
    rw [runOps_flag, new_flag]
  refine ⟨h1, ?_⟩
  intro hno
  rw [h1, flagAfter_of_no_clear _ _ hno, documentedHoldsDefault]
  cases c.cache n <;> rfl

/-- C11, amended, on a cache that holds "a": the variable pulls its value, so the
flag is false and stays false through `setPassive`. -/
theorem holdsDefaultValue_after_ops_witness :
    [PersistentOp.setPassive 3, PersistentOp.writeThroughGet 4].any
      PersistentOp.isClearCache = false ∧
    (runOps [PersistentOp.setPassive 3, PersistentOp.writeThroughGet 4]
      (PersistentValue.new ((PersistentCache.empty Nat).insert "a" 9) "a" 1)).2.holdsDefaultValue =
      documentedHoldsDefault (((PersistentCache.empty Nat).insert "a" 9).cache "a").isSome
        [PersistentOp.setPassive 3, PersistentOp.writeThroughGet 4] :=
  ⟨rfl, (holdsDefaultValue_after_ops ((PersistentCache.empty Nat).insert "a" 9) "a" 1
    [PersistentOp.setPassive 3, PersistentOp.writeThroughGet 4]).2 rfl⟩

/-! ### The count maps in insertion order -/

theorem incrementValueCount_bump (valueCounts : List ValueCountMap) (ind : Nat) (val : ℚ)
    (h : ind < valueCounts.length) :
    ∃ vc, incrementValueCount valueCounts ind val = some vc ∧ vc.length = valueCounts.length ∧
      ∀ n, vc.getD n [] =
        if ind = n then bumpCount (valueCounts.getD n []) val else valueCounts.getD n [] := by
  have hget : valueCounts.getD ind [] = valueCounts[ind] := by
    simp [List.getD_eq_getElem?_getD, List.getElem?_eq_getElem h]
  refine ⟨valueCounts.set ind (bumpCount valueCounts[ind] val), ?_, by simp, ?_⟩
  · simp only [incrementValueCount, List.getElem?_eq_getElem h, bumpCount]
    cases (valueCounts[ind]).find val <;> rfl
  · intro n
    rw [getD_set_map]
    by_cases hn : ind = n
    · subst hn
      simp [h, hget]
    · simp [hn]

theorem countEdgeStep_bump {net : CurveNetwork} {values : List ℚ} (wf : WellFormed net values)
    (valueCounts : List ValueCountMap) (hl : valueCounts.length = net.nNodes) {iE : Nat}
    (h : iE < net.nEdges) :
    ∃ vc, countEdgeStep net values valueCounts iE = some vc ∧ vc.length = net.nNodes ∧
      ∀ n, vc.getD n [] =
        (incidentValuesOfEdge net values n iE).foldl bumpCount (valueCounts.getD n []) := by
  obtain ⟨eTail, eTip, v, h1, h2, h3, lt1, lt2⟩ := edge_reads wf h
  obtain ⟨d1, e1, l1, g1⟩ := incrementValueCount_bump valueCounts eTail v (by rw [hl]; exact lt1)
  obtain ⟨d2, e2, l2, g2⟩ := incrementValueCount_bump d1 eTip v (by rw [l1, hl]; exact lt2)
  refine ⟨d2, ?_, by rw [l2, l1, hl], ?_⟩
  · simp [countEdgeStep, h1, h2, h3, e1, e2]
  · intro n
    rw [g2, g1]
    simp only [incidentValuesOfEdge, h1, h2, h3]
    by_cases a : eTail = n <;> by_cases b : eTip = n <;> simp [a, b]

theorem countEdgeLoop_bump {net : CurveNetwork} {values : List ℚ} (wf : WellFormed net values)
    (k : Nat) (hk : k ≤ net.nEdges) :
    ∃ vc, (List.range k).foldlM (countEdgeStep net values) (List.replicate net.nNodes []) =
        some vc ∧ vc.length = net.nNodes ∧
      ∀ n, vc.getD n [] =
        countMapOf ((List.range k).flatMap (incidentValuesOfEdge net values n)) := by
  induction k with
  | zero =>
    refine ⟨List.replicate net.nNodes [], by simp, by simp, ?_⟩
    intro n
    simp only [List.getD_eq_getElem?_getD, List.getElem?_replicate]
    by_cases hn : n < net.nNodes <;> simp [hn, countMapOf]
  | succ k ih =>
    obtain ⟨d1, e1, l1, g1⟩ := ih (Nat.le_of_succ_le hk)
    obtain ⟨d2, e2, l2, g2⟩ := countEdgeStep_bump wf d1 l1 (Nat.lt_of_succ_le hk)
    refine ⟨d2, ?_, l2, ?_⟩
    · simp [List.range_succ, List.foldlM_append, e1, e2]
    · intro n
      rw [g2, g1, List.range_succ]
      simp [List.flatMap_append, countMapOf, List.foldl_append]

/-- The Categorical branch in closed form: the entry of node `n` is the scan of
the count map of the values incident on `n`, whatever the prior buffer. -/
theorem updateNodeAverageValues_categorical_closed
    (iterationOrder : ValueCountMap → List (ℚ × Nat)) {net : CurveNetwork} {values : List ℚ}
    (wf : WellFormed net values) (prior : List FloatVal) :
    updateNodeAverageValues iterationOrder net DataType.CATEGORICAL values prior =
      some ((List.range net.nNodes).map (fun n =>
        FloatVal.finite (modeScan (iterationOrder (countMapOf (incidentValues net values n)))))) := by
  obtain ⟨vc, e, hfold, _, _⟩ := updateNodeAverageValues_categorical iterationOrder wf prior
  obtain ⟨vc2, hfold2, _, g⟩ := countEdgeLoop_bump wf net.nEdges (Nat.le_refl _)
  rw [hfold] at hfold2
  obtain rfl : vc = vc2 := by simpa using hfold2
  rw [e]
  congr 1
  apply List.map_congr_left
  intro n _
  rw [g n]; rfl

theorem countMapOf_append (incident : List ℚ) (a : ℚ) :
    countMapOf (incident ++ [a]) = bumpCount (countMapOf incident) a := by
  simp [countMapOf, List.foldl_append]

theorem countMapOf_valid (incident : List ℚ) :
    (countMapOf incident).Valid ∧
      ∀ x, (countMapOf incident).countOf x = incident.count x := by
  induction incident using List.reverseRecOn with
  | nil => exact ⟨⟨by simp [countMapOf], by simp [countMapOf]⟩,
      fun x => by simp [countMapOf, ValueCountMap.countOf, find_nil]⟩
  | append_singleton l a ih =>
    rw [countMapOf_append]
    refine ⟨valid_increment ih.1 a, ?_⟩
    intro x
    have := countOf_increment (countMapOf l) a x
    unfold bumpCount
    rw [this, ih.2 x, List.count_append]
    by_cases hx : x = a
    · subst hx; simp
    · have : ¬ a = x := fun e => hx e.symm
      simp [hx, List.count_cons, this]

theorem countMapOf_mem {incident : List ℚ} {x : ℚ} {c : Nat}
    (h : (x, c) ∈ countMapOf incident) : incident.count x = c ∧ 0 < c := by
  obtain ⟨hv, hc⟩ := countMapOf_valid incident
  have hf := (mem_iff_find hv.1 x c).1 h
  refine ⟨?_, hv.2 _ h⟩
  rw [← hc x, ValueCountMap.countOf, hf]; rfl

theorem countMapOf_find_none (incident : List ℚ) (a : ℚ) :
    (countMapOf incident).find a = none ↔ a ∉ incident := by
  obtain ⟨hv, hc⟩ := countMapOf_valid incident
  constructor
  · intro h
    have := hc a
    rw [ValueCountMap.countOf, h] at this
    exact List.count_eq_zero.1 this.symm
  · intro h
    cases hf : (countMapOf incident).find a with
    | none => rfl
    | some c =>
      have hm := (mem_iff_find hv.1 a c).2 hf
      obtain ⟨h1, h2⟩ := countMapOf_mem hm
      rw [List.count_eq_zero.2 h] at h1
      omega

/-! ### The scan keeps the first entry of highest count -/

theorem modeScan_fold_first (entries : List (ℚ × Nat)) (acc : Nat × ℚ) :
    (entries.foldl modeScanStep acc = acc ∧ ∀ e ∈ entries, e.2 ≤ acc.1) ∨
    ∃ pre x c post, entries = pre ++ (x, c) :: post ∧
      entries.foldl modeScanStep acc = (c, x) ∧ acc.1 < c ∧
      (∀ e ∈ pre, e.2 < c) ∧ ∀ e ∈ post, e.2 ≤ c := by
  induction entries generalizing acc with
  | nil => left; simp
  | cons e t ih =>
    rw [List.foldl_cons]
    by_cases hgt : e.2 > acc.1
    · have hstep : modeScanStep acc e = (e.2, e.1) := by simp [modeScanStep, hgt]
      rw [hstep]
      right
      rcases ih (e.2, e.1) with ⟨h1, h2⟩ | ⟨pre, x, c, post, h1, h2, h3, h4, h5⟩
      · exact ⟨[], e.1, e.2, t, rfl, h1, hgt, by simp, h2⟩
      · refine ⟨e :: pre, x, c, post, by rw [h1]; rfl, h2, Nat.lt_trans hgt h3, ?_, h5⟩
        intro e0 he0
        rcases List.mem_cons.1 he0 with rfl | h6
        · exact h3
        · exact h4 e0 h6
    · have hstep : modeScanStep acc e = acc := by simp [modeScanStep, hgt]
      rw [hstep]
      rcases ih acc with ⟨h1, h2⟩ | ⟨pre, x, c, post, h1, h2, h3, h4, h5⟩
      · left
        refine ⟨h1, ?_⟩
        intro e0 he0
        rcases List.mem_cons.1 he0 with rfl | h6
        · exact Nat.le_of_not_lt hgt
        · exact h2 e0 h6
      · right
        refine ⟨e :: pre, x, c, post, by rw [h1]; rfl, h2, h3, ?_, h5⟩
        intro e0 he0
        rcases List.mem_cons.1 he0 with rfl | h6
        · exact Nat.lt_of_le_of_lt (Nat.le_of_not_lt hgt) h3
        · exact h4 e0 h6

/-- The first entry of highest count in the visited sequence of the count map of a
non-empty list: what the scan returns, for every visiting order. -/
theorem modeScan_first_visited {iterationOrder : ValueCountMap → List (ℚ × Nat)}
    (hperm : ∀ m, (iterationOrder m).Perm m) {incident : List ℚ} (hne : incident ≠ []) :
    ∃ pre x post,
      iterationOrder (countMapOf incident) = pre ++ (x, incident.count x) :: post ∧
      modeScan (iterationOrder (countMapOf incident)) = x ∧
      x ∈ incident ∧
      (∀ y ∈ incident, incident.count y ≤ incident.count x) ∧
      (∀ e ∈ pre, e.1 ∈ incident ∧ e.2 = incident.count e.1 ∧
        incident.count e.1 < incident.count x) ∧
      (∀ e ∈ post, e.1 ∈ incident ∧ e.2 = incident.count e.1) ∧
      ∀ y ∈ incident, y ≠ x → incident.count y = incident.count x →
        (y, incident.count y) ∈ post := by
  obtain ⟨x0, hx0⟩ := List.exists_mem_of_ne_nil incident hne
  obtain ⟨hv, _⟩ := countMapOf_valid incident
  have hmemL : ∀ e, e ∈ iterationOrder (countMapOf incident) ↔ e ∈ countMapOf incident :=
    fun e => (hperm (countMapOf incident)).mem_iff
  have hentry : ∀ e ∈ iterationOrder (countMapOf incident),
      e.1 ∈ incident ∧ e.2 = incident.count e.1 := by
    intro e he
    have hm : (e.1, e.2) ∈ countMapOf incident := (hmemL e).1 he
    obtain ⟨h1, h2⟩ := countMapOf_mem hm
    exact ⟨List.count_pos_iff.1 (by rw [h1]; exact h2), h1.symm⟩
  have hvisited : ∀ y ∈ incident, (y, incident.count y) ∈ iterationOrder (countMapOf incident) := by
    intro y hy
    have hnone : (countMapOf incident).find y ≠ none :=
      fun h => (countMapOf_find_none incident y).1 h hy
    obtain ⟨cy, hcy⟩ := Option.ne_none_iff_exists'.1 hnone
    have hm := (mem_iff_find hv.1 y cy).2 hcy
    rw [(countMapOf_mem hm).1]
    exact (hmemL _).2 hm
  rcases modeScan_fold_first (iterationOrder (countMapOf incident)) (0, 0) with
    ⟨_, h2⟩ | ⟨pre, x, c, post, h1, h2, _, h4, h5⟩
  · exfalso
    have hle := h2 _ (hvisited x0 hx0)
    have hpos : 0 < incident.count x0 := List.count_pos_iff.2 hx0
    simp at hle
    omega
  · have hx : (x, c) ∈ iterationOrder (countMapOf incident) := by rw [h1]; simp
    obtain ⟨hxin, hxc⟩ := hentry _ hx
    simp only at hxin hxc
    subst hxc
    have hmax : ∀ y ∈ incident, incident.count y ≤ incident.count x := by
      intro y hy
      have hm := hvisited y hy
      rw [h1] at hm
      rcases List.mem_append.1 hm with h6 | h6
      · exact Nat.le_of_lt (h4 _ h6)
      · rcases List.mem_cons.1 h6 with h7 | h7
        · simp only [Prod.mk.injEq] at h7; omega
        · exact h5 _ h7
    refine ⟨pre, x, post, h1, by unfold modeScan; rw [h2], hxin, hmax, ?_, ?_, ?_⟩
    · intro e he
      have hmem : e ∈ iterationOrder (countMapOf incident) := by
        rw [h1]; exact List.mem_append_left _ he
      obtain ⟨ha, hb⟩ := hentry e hmem
      refine ⟨ha, hb, ?_⟩
      have := h4 e he
      omega
    · intro e he
      have hmem : e ∈ iterationOrder (countMapOf incident) := by
        rw [h1]; exact List.mem_append_right _ (List.mem_cons_of_mem _ he)
      exact hentry e hmem
    · intro y hy hyx hcount
      have hm := hvisited y hy
      rw [h1] at hm
      rcases List.mem_append.1 hm with h6 | h6
      · have := h4 _ h6
        simp only at this
        omega
      · rcases List.mem_cons.1 h6 with h7 | h7
        · simp only [Prod.mk.injEq] at h7
          exact absurd h7.1 hyx
        · exact h7

/-- C13, as stated, fails: on edges `(0,1): 1` and `(1,2): 2`, with the count
maps visited in reverse insertion order (an order the language allows), node 1
resolves its tie to 2, the value encountered last, whereas the value encountered
first is 1. -/
theorem categorical_tie_not_first_encountered :
    (∀ m : ValueCountMap, (List.reverse m).Perm m) ∧
    WellFormed scenarioNetwork [1, 2] ∧
    incidentValues scenarioNetwork [1, 2] 1 = [1, 2] ∧
    firstEncounteredMode (incidentValues scenarioNetwork [1, 2] 1) = 1 ∧
    updateNodeAverageValues List.reverse scenarioNetwork DataType.CATEGORICAL [1, 2] [] =
      some [FloatVal.finite 1, FloatVal.finite 2, FloatVal.finite 2] ∧
    ∃ r, updateNodeAverageValues List.reverse scenarioNetwork DataType.CATEGORICAL [1, 2] [] =
        some r ∧
      r[1]? ≠ some (FloatVal.finite
        (firstEncounteredMode (incidentValues scenarioNetwork [1, 2] 1))) := by
  have hinc : incidentValues scenarioNetwork [1, 2] 1 = [1, 2] := by
    simp [incidentValues, incidentValuesOfEdge, scenarioNetwork, List.range, List.range.loop]
  have hfirst : firstEncounteredMode (incidentValues scenarioNetwork [1, 2] 1) = 1 := by
    rw [hinc]
    simp [firstEncounteredMode, List.count_cons]
  have hrun : updateNodeAverageValues List.reverse scenarioNetwork DataType.CATEGORICAL
      [1, 2] [] = some [FloatVal.finite 1, FloatVal.finite 2, FloatVal.finite 2] := by
    simp [updateNodeAverageValues, scenarioNetwork, resize, List.range, List.range.loop,
      countEdgeStep, incrementValueCount, ValueCountMap.find, ValueCountMap.assign,
      modeNodeStep, modeScan, modeScanStep]
  refine ⟨List.reverse_perm, wellFormed_scenario _ rfl, hinc, hfirst, hrun, _, hrun, ?_⟩
  rw [hfirst]
  simp

/-- C13, amended: for every order in which the count maps are visited, the
Categorical branch leaves on every node with an incident edge the value `x` that
comes first, in that visiting order, among the values of highest incidence count:
`x` has the highest count, every value visited before `x` has a strictly lower
count, and every other value that ties with `x` is visited after it. -/
theorem categorical_tie_first_visited (iterationOrder : ValueCountMap → List (ℚ × Nat))
    (hperm : ∀ m, (iterationOrder m).Perm m) (net : CurveNetwork) (values : List ℚ)
    (wf : WellFormed net values) (prior : List FloatVal) :
    ∃ r, updateNodeAverageValues iterationOrder net DataType.CATEGORICAL values prior = some r ∧
      r.length = net.nNodes ∧
      ∀ n, n < net.nNodes → incidentValues net values n ≠ [] →
        ∃ pre x post,
          iterationOrder (countMapOf (incidentValues net values n)) =
            pre ++ (x, (incidentValues net values n).count x) :: post ∧
          r[n]? = some (FloatVal.finite x) ∧
          x ∈ incidentValues net values n ∧
          (∀ y ∈ incidentValues net values n,
            (incidentValues net values n).count y ≤ (incidentValues net values n).count x) ∧
          (∀ e ∈ pre, e.1 ∈ incidentValues net values n ∧
            e.2 = (incidentValues net values n).count e.1 ∧
            (incidentValues net values n).count e.1 <
              (incidentValues net values n).count x) ∧
          (∀ e ∈ post, e.1 ∈ incidentValues net values n ∧
            e.2 = (incidentValues net values n).count e.1) ∧
          ∀ y ∈ incidentValues net values n, y ≠ x →
            (incidentValues net values n).count y = (incidentValues net values n).count x →
            (y, (incidentValues net values n).count y) ∈ post := by
  refine ⟨_, updateNodeAverageValues_categorical_closed iterationOrder wf prior, by simp, ?_⟩
  intro n hn hne
  obtain ⟨pre, x, post, h1, h2, h3, h4, h5, h6, h7⟩ := modeScan_first_visited hperm hne
  refine ⟨pre, x, post, h1, ?_, h3, h4, h5, h6, h7⟩
  simp [List.getElem?_map, List.getElem?_range hn, h2]

/-- C13, amended, on the scenario of the spec with `A = 1` and `B = 2`, the count
maps visited in reverse insertion order: node 1 resolves its tie to `B`, the tied
value visited first. -/
theorem categorical_tie_first_visited_witness :
    (∀ m : ValueCountMap, (List.reverse m).Perm m) ∧
    WellFormed scenarioNetwork [1, 2] ∧
    incidentValues scenarioNetwork [1, 2] 1 ≠ [] ∧
    (∃ r, updateNodeAverageValues List.reverse scenarioNetwork DataType.CATEGORICAL [1, 2]
        [] = some r ∧ r.length = scenarioNetwork.nNodes ∧
      ∃ pre x post,
        List.reverse (countMapOf (incidentValues scenarioNetwork [1, 2] 1)) =
          pre ++ (x, (incidentValues scenarioNetwork [1, 2] 1).count x) :: post ∧
        r[1]? = some (FloatVal.finite x) ∧
        ∀ e ∈ pre, (incidentValues scenarioNetwork [1, 2] 1).count e.1 <
          (incidentValues scenarioNetwork [1, 2] 1).count x) ∧
    List.reverse (countMapOf (incidentValues scenarioNetwork [1, 2] 1)) = [(2, 1), (1, 1)] ∧
    updateNodeAverageValues List.reverse scenarioNetwork DataType.CATEGORICAL [1, 2] [] =
      some [FloatVal.finite 1, FloatVal.finite 2, FloatVal.finite 2] := by
  have hinc : incidentValues scenarioNetwork [1, 2] 1 = [1, 2] := by
    simp [incidentValues, incidentValuesOfEdge, scenarioNetwork, List.range, List.range.loop]
  have hne : incidentValues scenarioNetwork [1, 2] 1 ≠ [] := by rw [hinc]; simp
  refine ⟨List.reverse_perm, wellFormed_scenario _ rfl, hne, ?_, ?_, ?_⟩
  · obtain ⟨r, e, l, h⟩ := categorical_tie_first_visited List.reverse List.reverse_perm
      scenarioNetwork [1, 2] (wellFormed_scenario _ rfl) []
    obtain ⟨pre, x, post, h1, h2, _, _, h5, _, _⟩ := h 1 (by decide) hne
    exact ⟨r, e, l, pre, x, post, h1, h2, fun e he => (h5 e he).2.2⟩
  · rw [hinc]
    simp [countMapOf, bumpCount, ValueCountMap.find, ValueCountMap.assign]
  · simp [updateNodeAverageValues, scenarioNetwork, resize, List.range, List.range.loop,
      countEdgeStep, incrementValueCount, ValueCountMap.find, ValueCountMap.assign,
      modeNodeStep, modeScan, modeScanStep]

/-! ### Bounds, call order, rule lists, overwriting -/

/-- C14: if the tail, tip and value arrays have `nEdges` entries, every tail/tip
index is below `nNodes` and the degree table has `nNodes` entries, then for both
data types, every prior buffer (longer or shorter than `nNodes`) and every
visiting order, `updateNodeAverageValues` takes no out-of-range branch, that is,
it returns a buffer, and that buffer has exactly `nNodes` entries, as has the
buffer right after the resize. -/
theorem updateNodeAverageValues_in_bounds (iterationOrder : ValueCountMap → List (ℚ × Nat))
    (net : CurveNetwork) (dataType : DataType) (values : List ℚ) (prior : List FloatVal)
    (htail : net.edgeTailInds.length = net.nEdges) (htip : net.edgeTipInds.length = net.nEdges)
    (hval : values.length = net.nEdges) (htailLt : ∀ i ∈ net.edgeTailInds, i < net.nNodes)
    (htipLt : ∀ i ∈ net.edgeTipInds, i < net.nNodes)
    (hdeg : net.nodeDegrees.length = net.nNodes) :
    (resize prior net.nNodes).length = net.nNodes ∧
    ∃ r, updateNodeAverageValues iterationOrder net dataType values prior = some r ∧
      r.length = net.nNodes :=
  ⟨resize_length prior net.nNodes,
    updateNodeAverageValues_isSome iterationOrder ⟨htail, htip, hval, htailLt, htipLt⟩
      (Nat.le_of_eq hdeg.symm) dataType prior⟩

/-- C14 on the scenario network with a prior buffer of five entries: the derived
array shrinks to three entries. -/
theorem updateNodeAverageValues_in_bounds_witness :
    (resize (List.replicate 5 (FloatVal.finite 9)) scenarioNetwork.nNodes).length =
      scenarioNetwork.nNodes ∧
    ∃ r, updateNodeAverageValues List.reverse scenarioNetwork DataType.CATEGORICAL [2, 4]
        (List.replicate 5 (FloatVal.finite 9)) = some r ∧ r.length = scenarioNetwork.nNodes :=
  updateNodeAverageValues_in_bounds List.reverse scenarioNetwork DataType.CATEGORICAL [2, 4]
    (List.replicate 5 (FloatVal.finite 9)) rfl rfl rfl (by decide) (by decide) rfl

theorem drawCalls_eq (q : CurveNetworkScalarQuantity) :
    drawCalls q = uniformBindings q ++
      [Call.draw ProgramSlot.edgeProgram, Call.draw ProgramSlot.nodeProgram] := rfl

theorem boundProgram_not_draw {c : Call} {p : ProgramSlot} (h : c.boundProgram = some p) :
    c.isDraw = false := by
  cases c <;> first | rfl | exact Option.noConfusion h

theorem createProgram_no_draw (env : Collaborators) (q q1 : CurveNetworkScalarQuantity)
    (calls : List Call) (h : q.createProgram env = some (q1, calls)) :
    ∀ c ∈ calls, c.isDraw = false := by
  cases hk : q.kind with
  | node =>
    simp only [CurveNetworkScalarQuantity.createProgram, hk, Option.some.injEq,
      CurveNetworkNodeScalarQuantity.createProgram, Prod.mk.injEq] at h
    obtain ⟨_, rfl⟩ := h
    intro c hc
    simp only [List.mem_cons, List.mem_singleton, List.not_mem_nil, or_false] at hc
    rcases hc with rfl | rfl | rfl | rfl | rfl | rfl | rfl | rfl | rfl | rfl | rfl <;> rfl
  | edge =>
    cases e : updateNodeAverageValues env.iterationOrder q.parent q.dataType q.values
      q.nodeAverageValues with
    | none =>
      simp [CurveNetworkScalarQuantity.createProgram, hk,
        CurveNetworkEdgeScalarQuantity.createProgram, e] at h
    | some r =>
      simp only [CurveNetworkScalarQuantity.createProgram, hk,
        CurveNetworkEdgeScalarQuantity.createProgram, e, Option.bind_eq_bind,
        Option.some_bind, Option.some.injEq, Prod.mk.injEq] at h
      obtain ⟨_, rfl⟩ := h
      intro c hc
      simp only [List.mem_cons, List.mem_singleton, List.not_mem_nil, or_false] at hc
      rcases hc with rfl | rfl | rfl | rfl | rfl | rfl | rfl | rfl | rfl | rfl | rfl <;> rfl

/-- In a log that ends with two draw calls after a part without draw call, every
call that is not a draw call comes before every draw call. -/
theorem before_draws (pre : List Call) (d1 d2 : Call) (hpre : ∀ c ∈ pre, c.isDraw = false)
    (hd1 : d1.isDraw = true) (hd2 : d2.isDraw = true) (i j : Nat) (c d : Call)
    (hi : (pre ++ [d1, d2])[i]? = some c) (hc : c.isDraw = false)
    (hj : (pre ++ [d1, d2])[j]? = some d) (hd : d.isDraw = true) : i < j := by
  have hi2 : i < pre.length := by
    by_contra hge
    have hge2 : pre.length ≤ i := Nat.le_of_not_lt hge
    rw [List.getElem?_append_right hge2] at hi
    have hmem : c ∈ [d1, d2] := List.mem_iff_getElem?.2 ⟨_, hi⟩
    simp only [List.mem_cons, List.mem_singleton, List.not_mem_nil, or_false] at hmem
    rcases hmem with rfl | rfl
    · rw [hd1] at hc; exact Bool.noConfusion hc
    · rw [hd2] at hc; exact Bool.noConfusion hc
  have hj2 : pre.length ≤ j := by
    by_contra hlt
    have hlt2 : j < pre.length := Nat.lt_of_not_le hlt
    rw [List.getElem?_append_left hlt2] at hj
    have hmem : d ∈ pre := List.mem_iff_getElem?.2 ⟨_, hj⟩
    rw [hpre d hmem] at hd
    exact Bool.noConfusion hd
  omega

theorem uniformBindings_no_draw (q : CurveNetworkScalarQuantity) :
    ∀ c ∈ uniformBindings q, c.isDraw = false := by
  intro c hc
  simp only [uniformBindings, List.mem_cons, List.mem_singleton, List.not_mem_nil,
    or_false] at hc
  rcases hc with rfl | rfl | rfl | rfl | rfl | rfl | rfl | rfl <;> rfl

/-- The log of `draw()` on an enabled quantity: a part without draw call that
holds the calls of the build (when there is one) and the uniform bindings,
followed by the draw call of the edge program and that of the node program. -/
theorem draw_log_shape (env : Collaborators) (q : CurveNetworkScalarQuantity)
    (hen : q.enabled = true)
    (hin : (q.nodeProgram = none ∨ q.edgeProgram = none) →
      q.kind = QuantityKind.edge → q.InBounds) :
    ∃ q1 pre, q.draw env =
        some (q1, pre ++ [Call.draw ProgramSlot.edgeProgram, Call.draw ProgramSlot.nodeProgram]) ∧
      (∀ c ∈ pre, c.isDraw = false) ∧ (∀ c ∈ uniformBindings q1, c ∈ pre) ∧
      ((q.nodeProgram = none ∨ q.edgeProgram = none) →
        ∃ q2 built, q.createProgram env = some (q2, built) ∧ ∀ c ∈ built, c ∈ pre) := by
  by_cases habs : q.nodeProgram = none ∨ q.edgeProgram = none
  · obtain ⟨q1, built, e, hd⟩ := draw_absent env q hen habs (hin habs)
    refine ⟨q1, Call.createProgram :: (built ++ uniformBindings q1), ?_, ?_, ?_, ?_⟩
    · rw [hd, drawCalls_eq]; simp
    · intro c hc
      rcases List.mem_cons.1 hc with rfl | h1
      · rfl
      · rcases List.mem_append.1 h1 with h2 | h2
        · exact createProgram_no_draw env q q1 built e c h2
        · exact uniformBindings_no_draw q1 c h2
    · intro c hc
      exact List.mem_cons_of_mem _ (List.mem_append_right _ hc)
    · intro _
      exact ⟨q1, built, e, fun c hc => List.mem_cons_of_mem _ (List.mem_append_left _ hc)⟩
  · have hn : q.nodeProgram ≠ none := fun h => habs (Or.inl h)
    have he : q.edgeProgram ≠ none := fun h => habs (Or.inr h)
    refine ⟨q, uniformBindings q, ?_, uniformBindings_no_draw q, fun c hc => hc, ?_⟩
    · rw [draw_present env q hen hn he, drawCalls_eq]
    · intro h; exact absurd h habs

/-- C15: the call log of one `draw()` of an enabled quantity (array accesses of a
rebuilt edge quantity in range) contains exactly two draw calls, that of the edge
program and then that of the node program; it contains every uniform binding and,
when the programs are built in this draw, every call of `createProgram`; and every
call that binds or fills something on a program stands before the draw call of
that program. -/
theorem draw_binds_before_draw_calls (env : Collaborators) (q : CurveNetworkScalarQuantity)
    (hen : q.enabled = true)
    (hin : (q.nodeProgram = none ∨ q.edgeProgram = none) →
      q.kind = QuantityKind.edge → q.InBounds) :
    ∃ q1 calls, q.draw env = some (q1, calls) ∧
      calls.filter Call.isDraw =
        [Call.draw ProgramSlot.edgeProgram, Call.draw ProgramSlot.nodeProgram] ∧
      (∀ c ∈ uniformBindings q1, c ∈ calls) ∧
      ((q.nodeProgram = none ∨ q.edgeProgram = none) →
        ∃ q2 built, q.createProgram env = some (q2, built) ∧ ∀ c ∈ built, c ∈ calls) ∧
      ∀ (i j : Nat) (c : Call) (p : ProgramSlot), calls[i]? = some c →
        c.boundProgram = some p → calls[j]? = some (Call.draw p) → i < j := by
  obtain ⟨q1, pre, hd, hpre, huni, hbuilt⟩ := draw_log_shape env q hen hin
  refine ⟨q1, _, hd, ?_, ?_, ?_, ?_⟩
  · rw [List.filter_append, List.filter_eq_nil_iff.2 (fun c hc => by simp [hpre c hc])]
    rfl
  · intro c hc
    exact List.mem_append_left _ (huni c hc)
  · intro habs
    obtain ⟨q2, built, e, hb⟩ := hbuilt habs
    exact ⟨q2, built, e, fun c hc => List.mem_append_left _ (hb c hc)⟩
  · intro i j c p hi hc hj
    exact before_draws pre (Call.draw ProgramSlot.edgeProgram)
      (Call.draw ProgramSlot.nodeProgram) hpre rfl rfl i j c (Call.draw p) hi
      (boundProgram_not_draw hc) hj rfl

/-- C15 on the fresh enabled edge quantity of the scenario, whose programs are
built in this draw. -/
theorem draw_binds_before_draw_calls_witness :
    scenarioEdgeQuantity.enabled = true ∧
    ((scenarioEdgeQuantity.nodeProgram = none ∨ scenarioEdgeQuantity.edgeProgram = none) →
      scenarioEdgeQuantity.kind = QuantityKind.edge → scenarioEdgeQuantity.InBounds) ∧
    ∃ q1 calls, scenarioEdgeQuantity.draw plainCollaborators = some (q1, calls) ∧
      calls.filter Call.isDraw =
        [Call.draw ProgramSlot.edgeProgram, Call.draw ProgramSlot.nodeProgram] ∧
      (∀ c ∈ uniformBindings q1, c ∈ calls) ∧
      ((scenarioEdgeQuantity.nodeProgram = none ∨ scenarioEdgeQuantity.edgeProgram = none) →
        ∃ q2 built, scenarioEdgeQuantity.createProgram plainCollaborators = some (q2, built) ∧
          ∀ c ∈ built, c ∈ calls) ∧
      ∀ (i j : Nat) (c : Call) (p : ProgramSlot), calls[i]? = some c →
        c.boundProgram = some p → calls[j]? = some (Call.draw p) → i < j :=
  ⟨rfl, fun _ _ => scenarioEdgeQuantity_inBounds,
    draw_binds_before_draw_calls plainCollaborators scenarioEdgeQuantity rfl
      (fun _ _ => scenarioEdgeQuantity_inBounds)⟩

theorem createProgram_requests (env : Collaborators) (q q1 : CurveNetworkScalarQuantity)
    (calls : List Call) (h : q.createProgram env = some (q1, calls)) :
    calls.filter Call.isRequestShader =
      requestedShaders env q.parent.material q.kind q.dataType ∧
    q1.nodeProgram = some ⟨"RAYCAST_SPHERE", env.addMaterialRules q.parent.material
      (env.addScalarRules (env.addCurveNetworkNodeRules ["SPHERE_PROPAGATE_VALUE"]))⟩ ∧
    q1.edgeProgram = some ⟨"RAYCAST_CYLINDER", env.addMaterialRules q.parent.material
      (env.addScalarRules
        (env.addCurveNetworkEdgeRules [edgeInitialRule q.kind q.dataType]))⟩ := by
  cases hk : q.kind with
  | node =>
    simp only [CurveNetworkScalarQuantity.createProgram, hk, Option.some.injEq,
      CurveNetworkNodeScalarQuantity.createProgram, Prod.mk.injEq] at h
    obtain ⟨rfl, rfl⟩ := h
    cases hd : q.dataType <;>
      simp [hd, requestedShaders, edgeInitialRule, nodeProgramRules, edgeProgramRules,
        Call.isRequestShader, List.filter]
  | edge =>
    cases e : updateNodeAverageValues env.iterationOrder q.parent q.dataType q.values
      q.nodeAverageValues with
    | none =>
      simp [CurveNetworkScalarQuantity.createProgram, hk,
        CurveNetworkEdgeScalarQuantity.createProgram, e] at h
    | some r =>
      simp only [CurveNetworkScalarQuantity.createProgram, hk,
        CurveNetworkEdgeScalarQuantity.createProgram, e, Option.bind_eq_bind,
        Option.some_bind, Option.some.injEq, Prod.mk.injEq] at h
      obtain ⟨rfl, rfl⟩ := h
      simp [requestedShaders, edgeInitialRule, nodeProgramRules, edgeProgramRules,
        Call.isRequestShader, List.filter]

/-- C16: a build (array accesses of an edge quantity in range) makes exactly two
shader requests, the node program from `RAYCAST_SPHERE` with initial rule
`SPHERE_PROPAGATE_VALUE` and the edge program from `RAYCAST_CYLINDER`, each with
the rule list `addMaterialRules(material, addScalarRules(structureRules([initial])))`;
the initial rule of the edge program depends on the quantity kind and the data
type only: for a node quantity it is `CYLINDER_PROPAGATE_NEAREST_VALUE` exactly
when the data type is Categorical and `CYLINDER_PROPAGATE_BLEND_VALUE` otherwise,
for an edge quantity it is `CYLINDER_PROPAGATE_VALUE`; and a rebuild after
`refresh()` makes the same requests with the same ordered rule lists. -/
theorem createProgram_requests_rules (env : Collaborators) (q : CurveNetworkScalarQuantity)
    (hin : q.kind = QuantityKind.edge → q.InBounds) :
    ∃ q1 calls, q.createProgram env = some (q1, calls) ∧
      calls.filter Call.isRequestShader =
        [Call.requestShader ProgramSlot.nodeProgram "RAYCAST_SPHERE"
          (env.addMaterialRules q.parent.material
            (env.addScalarRules (env.addCurveNetworkNodeRules ["SPHERE_PROPAGATE_VALUE"]))),
         Call.requestShader ProgramSlot.edgeProgram "RAYCAST_CYLINDER"
          (env.addMaterialRules q.parent.material
            (env.addScalarRules
              (env.addCurveNetworkEdgeRules [edgeInitialRule q.kind q.dataType])))] ∧
      q1.nodeProgram = some ⟨"RAYCAST_SPHERE", env.addMaterialRules q.parent.material
        (env.addScalarRules (env.addCurveNetworkNodeRules ["SPHERE_PROPAGATE_VALUE"]))⟩ ∧
      q1.edgeProgram = some ⟨"RAYCAST_CYLINDER", env.addMaterialRules q.parent.material
        (env.addScalarRules
          (env.addCurveNetworkEdgeRules [edgeInitialRule q.kind q.dataType]))⟩ ∧
      (q.kind = QuantityKind.node →
        (edgeInitialRule q.kind q.dataType = "CYLINDER_PROPAGATE_NEAREST_VALUE" ↔
          q.dataType = DataType.CATEGORICAL) ∧
        (q.dataType ≠ DataType.CATEGORICAL →
          edgeInitialRule q.kind q.dataType = "CYLINDER_PROPAGATE_BLEND_VALUE")) ∧
      (q.kind = QuantityKind.edge →
        edgeInitialRule q.kind q.dataType = "CYLINDER_PROPAGATE_VALUE") ∧
      ∃ q2 calls2, q1.refresh.createProgram env = some (q2, calls2) ∧
        calls2.filter Call.isRequestShader = calls.filter Call.isRequestShader := by
  obtain ⟨q1, calls, e, _, _, _, _, _, hdt, hval, hpar, hkind⟩ := createProgram_spec env q hin
  obtain ⟨hreq, hn, he⟩ := createProgram_requests env q q1 calls e
  have hin2 : q1.refresh.kind = QuantityKind.edge → q1.refresh.InBounds := by
    intro hk
    have hk1 : q.kind = QuantityKind.edge := by rw [← hkind]; exact hk
    obtain ⟨wf, hdeg⟩ := hin hk1
    have h1 : q1.refresh.parent = q.parent := hpar
    have h2 : q1.refresh.values = q.values := hval
    unfold CurveNetworkScalarQuantity.InBounds
    rw [h1, h2]
    exact ⟨wf, hdeg⟩
  obtain ⟨q2, calls2, e2, _⟩ := createProgram_spec env q1.refresh hin2
  obtain ⟨hreq2, _, _⟩ := createProgram_requests env q1.refresh q2 calls2 e2
  have h1 : q1.refresh.parent = q.parent := hpar
  have h3 : q1.refresh.kind = q.kind := hkind
  have h4 : q1.refresh.dataType = q.dataType := hdt
  refine ⟨q1, calls, e, hreq, hn, he, ?_, ?_, q2, calls2, e2, ?_⟩
  · intro hk
    rw [hk]
    cases q.dataType <;> simp [edgeInitialRule]
  · intro hk
    rw [hk]
    cases q.dataType <;> rfl
  · rw [hreq2, hreq, h1, h3, h4]

/-- C16 on the fresh enabled edge quantity of the scenario. -/
theorem createProgram_requests_rules_witness :
    (scenarioEdgeQuantity.kind = QuantityKind.edge → scenarioEdgeQuantity.InBounds) ∧
    ∃ q1 calls, scenarioEdgeQuantity.createProgram plainCollaborators = some (q1, calls) ∧
      calls.filter Call.isRequestShader =
        [Call.requestShader ProgramSlot.nodeProgram "RAYCAST_SPHERE" ["SPHERE_PROPAGATE_VALUE"],
         Call.requestShader ProgramSlot.edgeProgram "RAYCAST_CYLINDER"
          ["CYLINDER_PROPAGATE_VALUE"]] := by
  refine ⟨fun _ => scenarioEdgeQuantity_inBounds, ?_⟩
  obtain ⟨q1, calls, e, hreq, _⟩ :=
    createProgram_requests_rules plainCollaborators scenarioEdgeQuantity
      (fun _ => scenarioEdgeQuantity_inBounds)
  exact ⟨q1, calls, e, hreq⟩

theorem incrementValueCount_length (valueCounts vc : List ValueCountMap) (ind : Nat) (val : ℚ)
    (h : incrementValueCount valueCounts ind val = some vc) :
    vc.length = valueCounts.length := by
  unfold incrementValueCount at h
  cases h1 : valueCounts[ind]? with
  | none => rw [h1] at h; exact Option.noConfusion h
  | some map =>
    rw [h1] at h
    cases h2 : map.find val with
    | none =>
      simp only [h2, Option.some.injEq] at h
      rw [← h]; simp
    | some count =>
      simp only [h2, Option.some.injEq] at h
      rw [← h]; simp

theorem countEdgeStep_length (net : CurveNetwork) (values : List ℚ)
    (valueCounts vc : List ValueCountMap) (iE : Nat)
    (h : countEdgeStep net values valueCounts iE = some vc) :
    vc.length = valueCounts.length := by
  unfold countEdgeStep at h
  cases h1 : net.edgeTailInds[iE]? with
  | none => simp [h1] at h
  | some eTail =>
    cases h2 : net.edgeTipInds[iE]? with
    | none => simp [h1, h2] at h
    | some eTip =>
      cases h3 : values[iE]? with
      | none => simp [h1, h2, h3] at h
      | some v =>
        cases h4 : incrementValueCount valueCounts eTail v with
        | none => simp [h1, h2, h3, h4] at h
        | some d1 =>
          simp only [h1, h2, h3, h4, Option.bind_eq_bind, Option.some_bind] at h
          rw [incrementValueCount_length d1 vc eTip v h,
            incrementValueCount_length valueCounts d1 eTail v h4]

theorem countEdgeFold_length (net : CurveNetwork) (values : List ℚ) (edges : List Nat)
    (valueCounts vc : List ValueCountMap)
    (h : edges.foldlM (countEdgeStep net values) valueCounts = some vc) :
    vc.length = valueCounts.length := by
  induction edges generalizing valueCounts with
  | nil =>
    simp only [List.foldlM_nil, Option.pure_def, Option.some.injEq] at h
    rw [h]
  | cons iE rest ih =>
    rw [List.foldlM_cons] at h
    cases h1 : countEdgeStep net values valueCounts iE with
    | none => simp [h1] at h
    | some d1 =>
      simp only [h1, Option.bind_eq_bind, Option.some_bind] at h
      rw [ih d1 h, countEdgeStep_length net values valueCounts d1 iE h1]

/-- The Categorical branch without any assumption on the arrays: the prior buffer
only enters through the resize, and every entry of the resized buffer is
overwritten. -/
theorem updateNodeAverageValues_categorical_any
    (iterationOrder : ValueCountMap → List (ℚ × Nat)) (net : CurveNetwork) (values : List ℚ)
    (prior : List FloatVal) :
    updateNodeAverageValues iterationOrder net DataType.CATEGORICAL values prior =
      ((List.range net.nEdges).foldlM (countEdgeStep net values)
        (List.replicate net.nNodes [])).map
        (fun vc => (List.range net.nNodes).map
          (fun n => FloatVal.finite (modeScan (iterationOrder (vc.getD n []))))) := by
  cases hfold : (List.range net.nEdges).foldlM (countEdgeStep net values)
      (List.replicate net.nNodes []) with
  | none => simp [updateNodeAverageValues, hfold]
  | some vc =>
    have hlen : vc.length = net.nNodes := by
      rw [countEdgeFold_length net values _ _ vc hfold]; simp
    have hres : (resize prior net.nNodes).length = net.nNodes := resize_length _ _
    obtain ⟨d2, e2, l2, g2⟩ := modeNodeLoop_spec iterationOrder vc (resize prior net.nNodes)
      (by rw [hlen, hres]) net.nNodes (by rw [hres])
    have hd2 : d2 = (List.range net.nNodes).map
        (fun n => FloatVal.finite (modeScan (iterationOrder (vc.getD n [])))) := by
      apply eq_map_range_of_getD d2 _ net.nNodes (by rw [l2, hres])
      intro n hn
      rw [g2]; simp [hn]
    rw [Option.map_some', ← hd2]
    simp [updateNodeAverageValues, hfold, e2]

/-- C17: in Categorical mode the result of `updateNodeAverageValues` is the same
for every two prior buffers; on in-range arrays it is a buffer of `nNodes`
entries, each one written from the count map of the values incident on its node,
so it is determined by `nNodes`, `nEdges`, the tail/tip indices and the edge
values (degree table and material play no part), and a second call on the buffer
left by the first returns that same buffer. -/
theorem categorical_overwrites_every_entry (iterationOrder : ValueCountMap → List (ℚ × Nat))
    (net : CurveNetwork) (values : List ℚ) :
    (∀ prior prior2 : List FloatVal,
      updateNodeAverageValues iterationOrder net DataType.CATEGORICAL values prior =
        updateNodeAverageValues iterationOrder net DataType.CATEGORICAL values prior2) ∧
    (WellFormed net values → ∀ prior : List FloatVal,
      ∃ r, updateNodeAverageValues iterationOrder net DataType.CATEGORICAL values prior =
          some r ∧
        r.length = net.nNodes ∧
        r = (List.range net.nNodes).map (fun n =>
          FloatVal.finite (modeScan (iterationOrder (countMapOf (incidentValues net values n))))) ∧
        updateNodeAverageValues iterationOrder net DataType.CATEGORICAL values r = some r ∧
        ∀ (degrees : List Nat) (material : String),
          updateNodeAverageValues iterationOrder
            { net with nodeDegrees := degrees, material := material }
            DataType.CATEGORICAL values prior = some r) := by
  constructor
  · intro prior prior2
    rw [updateNodeAverageValues_categorical_any, updateNodeAverageValues_categorical_any]
  · intro wf prior
    refine ⟨_, updateNodeAverageValues_categorical_closed iterationOrder wf prior, by simp, rfl,
      updateNodeAverageValues_categorical_closed iterationOrder wf _, ?_⟩
    intro degrees material
    have wf2 : WellFormed { net with nodeDegrees := degrees, material := material } values :=
      ⟨wf.tailLen, wf.tipLen, wf.valLen, wf.tailLt, wf.tipLt⟩
    exact updateNodeAverageValues_categorical_closed iterationOrder wf2 prior

/-- C17 on the network with a self-loop: from a prior buffer of 9 and a
non-finite value the call gives 5, 5, 7, 0, and a second call on that buffer gives
it again. -/
theorem categorical_overwrites_every_entry_witness :
    WellFormed selfLoopNetwork [5, 5, 7] ∧
    (∃ r, updateNodeAverageValues List.reverse selfLoopNetwork DataType.CATEGORICAL [5, 5, 7]
        [FloatVal.finite 9, FloatVal.nonFinite] = some r ∧
      r.length = selfLoopNetwork.nNodes ∧
      updateNodeAverageValues List.reverse selfLoopNetwork DataType.CATEGORICAL [5, 5, 7] r =
        some r) ∧
    updateNodeAverageValues List.reverse selfLoopNetwork DataType.CATEGORICAL [5, 5, 7]
      [FloatVal.finite 5, FloatVal.finite 5, FloatVal.finite 7, FloatVal.finite 0] =
      some [FloatVal.finite 5, FloatVal.finite 5, FloatVal.finite 7, FloatVal.finite 0] := by
  have wf : WellFormed selfLoopNetwork [5, 5, 7] := ⟨rfl, rfl, rfl, by decide, by decide⟩
  refine ⟨wf, ?_, ?_⟩
  · obtain ⟨r, e, l, _, e2, _⟩ :=
      (categorical_overwrites_every_entry List.reverse selfLoopNetwork [5, 5, 7]).2 wf
        [FloatVal.finite 9, FloatVal.nonFinite]
    exact ⟨r, e, l, e2⟩
  · simp [updateNodeAverageValues, selfLoopNetwork, resize, List.range, List.range.loop,
      countEdgeStep, incrementValueCount, ValueCountMap.find, ValueCountMap.assign,
      modeNodeStep, modeScan, modeScanStep]

end polyscope
